import Mathlib

/-!
# deployment-agent: token verification, network matching, configuration store

A shallow embedding of the Go sources

* `config/functions.go`  (`UpdateConfiguration`, `generateHash`,
  `Project.ValidateToken`, `TokenDetail.containsIP`),
* `cmd/regenerate.go`    (`regenerate`, `regenerateCmd.Run`),
* `cmd/add.go`           (`addCmd.Run`),

together with the parts of the Go standard library they call
(`crypto/sha256`, `encoding/base64`, `net.ParseCIDR`, `net.ParseIP`,
`IPNet.Contains`, `os.Stat`, `ioutil.WriteFile`).

Conventions.  A Go `string` is a Lean `String` (Go strings holding UTF-8
text); `[]byte(s)` is `bytesOf s`, a list of naturals below 256.  A Go `error`
value is an `Option GoError` (`none` is `nil`).  Effects (file system,
standard output, calls into other packages, process exit, run-time panic) are
explicit: functions take and return the state they act on.
-/

namespace DeploymentAgent

/-! ## Go strings as bytes -/

/-- UTF-8 encoding of one code point, as in the memory layout of a Go string. -/
def utf8Encode (c : Nat) : List Nat :=
  if c < 0x80 then [c]
  else if c < 0x800 then [0xC0 + c / 64, 0x80 + c % 64]
  else if c < 0x10000 then [0xE0 + c / 4096, 0x80 + c / 64 % 64, 0x80 + c % 64]
  else [0xF0 + c / 262144, 0x80 + c / 4096 % 64, 0x80 + c / 64 % 64, 0x80 + c % 64]

/-- The conversion `[]byte(s)`. -/
def bytesOf (s : String) : List Nat :=
  s.data.flatMap (fun ch => utf8Encode ch.toNat)

/-! ## `crypto/sha256` -/

namespace SHA256

/-- Addition of 32-bit words. -/
def add32 (a b : Nat) : Nat := (a + b) % 2 ^ 32

/-- Rotate a 32-bit word right by `n` bits (`bits.RotateLeft32(x, -n)`). -/
def rotr (x n : Nat) : Nat := (x >>> n ||| x <<< (32 - n)) % 2 ^ 32

/-- Bitwise complement of a 32-bit word. -/
def not32 (x : Nat) : Nat := 2 ^ 32 - 1 - x % 2 ^ 32

/-- Round constants `_K[0..7]`. -/
def K0 : List Nat :=
  [0x428a2f98, 0x71374491, 0xb5c0fbcf, 0xe9b5dba5, 0x3956c25b, 0x59f111f1, 0x923f82a4, 0xab1c5ed5]

/-- Round constants `_K[8..15]`. -/
def K1 : List Nat :=
  [0xd807aa98, 0x12835b01, 0x243185be, 0x550c7dc3, 0x72be5d74, 0x80deb1fe, 0x9bdc06a7, 0xc19bf174]

/-- Round constants `_K[16..23]`. -/
def K2 : List Nat :=
  [0xe49b69c1, 0xefbe4786, 0x0fc19dc6, 0x240ca1cc, 0x2de92c6f, 0x4a7484aa, 0x5cb0a9dc, 0x76f988da]

/-- Round constants `_K[24..31]`. -/
def K3 : List Nat :=
  [0x983e5152, 0xa831c66d, 0xb00327c8, 0xbf597fc7, 0xc6e00bf3, 0xd5a79147, 0x06ca6351, 0x14292967]

/-- Round constants `_K[32..39]`. -/
def K4 : List Nat :=
  [0x27b70a85, 0x2e1b2138, 0x4d2c6dfc, 0x53380d13, 0x650a7354, 0x766a0abb, 0x81c2c92e, 0x92722c85]

/-- Round constants `_K[40..47]`. -/
def K5 : List Nat :=
  [0xa2bfe8a1, 0xa81a664b, 0xc24b8b70, 0xc76c51a3, 0xd192e819, 0xd6990624, 0xf40e3585, 0x106aa070]

/-- Round constants `_K[48..55]`. -/
def K6 : List Nat :=
  [0x19a4c116, 0x1e376c08, 0x2748774c, 0x34b0bcb5, 0x391c0cb3, 0x4ed8aa4a, 0x5b9cca4f, 0x682e6ff3]

/-- Round constants `_K[56..63]`. -/
def K7 : List Nat :=
  [0x748f82ee, 0x78a5636f, 0x84c87814, 0x8cc70208, 0x90befffa, 0xa4506ceb, 0xbef9a3f7, 0xc67178f2]

/-- Go: the table `_K` of `sha256block.go`. -/
def K : List Nat := K0 ++ K1 ++ K2 ++ K3 ++ K4 ++ K5 ++ K6 ++ K7

/-- Big-endian 32-bit word of four bytes. -/
def word (b0 b1 b2 b3 : Nat) : Nat := ((b0 * 256 + b1) * 256 + b2) * 256 + b3

/-- The sixteen message words of a 64-byte block. -/
def blockWords : List Nat → List Nat
  | b0 :: b1 :: b2 :: b3 :: rest => word b0 b1 b2 b3 :: blockWords rest
  | _ => []

/-- Message schedule, most recent word first: `rev` holds `w[t-1], w[t-2], ...`;
`n` more words are appended. -/
def extend : Nat → List Nat → List Nat
  | 0, rev => rev
  | n + 1, rev =>
    let v1 := rev.getD 1 0
    let v2 := rev.getD 14 0
    let t1 := rotr v1 17 ^^^ rotr v1 19 ^^^ (v1 >>> 10)
    let t2 := rotr v2 7 ^^^ rotr v2 18 ^^^ (v2 >>> 3)
    extend n (add32 (add32 (add32 t1 (rev.getD 6 0)) t2) (rev.getD 15 0) :: rev)

/-- The 64 schedule words `w[0], ..., w[63]` of a block. -/
def schedule (block : List Nat) : List Nat :=
  (extend 48 (blockWords block).reverse).reverse

/-- The eight working variables. -/
structure Vars where
  a : Nat
  b : Nat
  c : Nat
  d : Nat
  e : Nat
  f : Nat
  g : Nat
  h : Nat
deriving DecidableEq, Repr

/-- One round of the compression function with round constant `k` and word `w`. -/
def round (v : Vars) (kw : Nat × Nat) : Vars :=
  let t1 := add32 (add32 (add32 (add32 v.h
      (rotr v.e 6 ^^^ rotr v.e 11 ^^^ rotr v.e 25))
      ((v.e &&& v.f) ^^^ (not32 v.e &&& v.g))) kw.1) kw.2
  let t2 := add32 (rotr v.a 2 ^^^ rotr v.a 13 ^^^ rotr v.a 22)
      ((v.a &&& v.b) ^^^ (v.a &&& v.c) ^^^ (v.b &&& v.c))
  { a := add32 t1 t2, b := v.a, c := v.b, d := v.c,
    e := add32 v.d t1, f := v.e, g := v.f, h := v.g }

/-- Process one 64-byte block (`block` in `sha256block.go`). -/
def compress (hs : Vars) (block : List Nat) : Vars :=
  let v := (K.zip (schedule block)).foldl round hs
  { a := add32 hs.a v.a, b := add32 hs.b v.b, c := add32 hs.c v.c, d := add32 hs.d v.d,
    e := add32 hs.e v.e, f := add32 hs.f v.f, g := add32 hs.g v.g, h := add32 hs.h v.h }

/-- Big-endian bytes of a 64-bit length. -/
def be64 (n : Nat) : List Nat :=
  [n / 2 ^ 56 % 256, n / 2 ^ 48 % 256, n / 2 ^ 40 % 256, n / 2 ^ 32 % 256,
   n / 2 ^ 24 % 256, n / 2 ^ 16 % 256, n / 2 ^ 8 % 256, n % 256]

/-- Big-endian bytes of a 32-bit word. -/
def be32 (n : Nat) : List Nat :=
  [n / 2 ^ 24 % 256, n / 2 ^ 16 % 256, n / 2 ^ 8 % 256, n % 256]

/-- Padding of `checkSum`: a `0x80` byte, zero bytes up to 56 modulo 64, then
the length in bits. -/
def pad (msg : List Nat) : List Nat :=
  let len := msg.length
  let zeros := if len % 64 < 56 then 55 - len % 64 else 64 + 55 - len % 64
  msg ++ 0x80 :: List.replicate zeros 0 ++ be64 (len * 8 % 2 ^ 64)

/-- Fold the compression function over `n` consecutive 64-byte blocks. -/
def blocks : Nat → Vars → List Nat → Vars
  | 0, hs, _ => hs
  | n + 1, hs, data => blocks n (compress hs (data.take 64)) (data.drop 64)

/-- The digest `h.Sum(nil)` after `h.Write(msg)` on a fresh `sha256.New()`. -/
def sum (msg : List Nat) : List Nat :=
  let p := pad msg
  let v := blocks (p.length / 64)
    { a := 0x6a09e667, b := 0xbb67ae85, c := 0x3c6ef372, d := 0xa54ff53a,
      e := 0x510e527f, f := 0x9b05688c, g := 0x1f83d9ab, h := 0x5be0cd19 } p
  be32 v.a ++ be32 v.b ++ be32 v.c ++ be32 v.d ++ be32 v.e ++ be32 v.f ++ be32 v.g ++ be32 v.h

end SHA256

/-! ## `encoding/base64` -/

namespace Base64

/-- The alphabet of `base64.URLEncoding`. -/
def encodeURL : List Char :=
  "ABCDEFGHIJKLMNOPQRSTUVWXYZabcdefghijklmnopqrstuvwxyz0123456789-_".data

/-- Character of a 6-bit value. -/
def enc (v : Nat) : Char := encodeURL.getD v 'A'

/-- Standard padded encoding (`StdPadding`, the character `=`) with the URL alphabet. -/
def encode : List Nat → List Char
  | b0 :: b1 :: b2 :: rest =>
    enc (b0 / 4) :: enc (b0 % 4 * 16 + b1 / 16) :: enc (b1 % 16 * 4 + b2 / 64) :: enc (b2 % 64)
      :: encode rest
  | [b0, b1] => [enc (b0 / 4), enc (b0 % 4 * 16 + b1 / 16), enc (b1 % 16 * 4), '=']
  | [b0] => [enc (b0 / 4), enc (b0 % 4 * 16), '=', '=']
  | [] => []

/-- Model of `base64.URLEncoding.EncodeToString`. -/
def URLEncodeToString (src : List Nat) : String := String.mk (encode src)

end Base64

/-! ## `config/functions.go`: hashing -/

/-- Go: `generateHash` (config/functions.go). -/
def generateHash (input : String) : String :=
  Base64.URLEncodeToString (SHA256.sum (bytesOf input))

/-! ## Package `net` of the Go standard library

Byte-level model of `net.ParseIP`, `net.ParseCIDR` and `(*IPNet).Contains`
(`net/ip.go`, `net/parse.go`, as of Go 1.12, the release current at the build
date in `constants/strings.go`; leading zeros in IPv4 octets are accepted).
An `IP` or `IPMask` is a list of byte values; the `nil` slice is the empty
list. -/

namespace Net

abbrev IP := List Nat
abbrev IPMask := List Nat

/-- Go: `type IPNet struct { IP IP; Mask IPMask }`. -/
structure IPNet where
  IP : IP
  Mask : IPMask
deriving DecidableEq, Repr

def IPv4len : Nat := 4
def IPv6len : Nat := 16

/-- Bigger than we need, not too big to worry about overflow. -/
def big : Nat := 0xFFFFFF

def v4InV6Prefix : List Nat := [0, 0, 0, 0, 0, 0, 0, 0, 0, 0, 0xff, 0xff]

/-- Go: `IPv4(a, b, c, d)`, the 16-byte form of an IPv4 address. -/
def IPv4 (a b c d : Nat) : IP := v4InV6Prefix ++ [a, b, c, d]

/-- Loop of `dtoi`: `n` is the number read so far, `i` the characters consumed. -/
def dtoiLoop : List Nat → Nat → Nat → Nat × Nat × Bool
  | [], n, i => if i = 0 then (0, 0, false) else (n, i, true)
  | c :: rest, n, i =>
    if 48 ≤ c ∧ c ≤ 57 then
      if n * 10 + (c - 48) ≥ big then (big, i, false)
      else dtoiLoop rest (n * 10 + (c - 48)) (i + 1)
    else if i = 0 then (0, 0, false) else (n, i, true)

/-- Go: `dtoi`, decimal to integer: number, characters consumed, success. -/
def dtoi (s : List Nat) : Nat × Nat × Bool := dtoiLoop s 0 0

/-- Value of a hexadecimal digit, if the byte is one. -/
def hexDigit (c : Nat) : Option Nat :=
  if 48 ≤ c ∧ c ≤ 57 then some (c - 48)
  else if 97 ≤ c ∧ c ≤ 102 then some (c - 97 + 10)
  else if 65 ≤ c ∧ c ≤ 70 then some (c - 65 + 10)
  else none

/-- Loop of `xtoi`. -/
def xtoiLoop : List Nat → Nat → Nat → Nat × Nat × Bool
  | [], n, i => if i = 0 then (0, i, false) else (n, i, true)
  | c :: rest, n, i =>
    match hexDigit c with
    | some d =>
      if n * 16 + d ≥ big then (0, i, false) else xtoiLoop rest (n * 16 + d) (i + 1)
    | none => if i = 0 then (0, i, false) else (n, i, true)

/-- Go: `xtoi`, hexadecimal to integer: number, characters consumed, success. -/
def xtoi (s : List Nat) : Nat × Nat × Bool := xtoiLoop s 0 0

/-- Loop of `parseIPv4`: `k` octets are still to be read, `i` is the loop
index.  Gives the octets read and the rest of the input; `none` is
`return nil`. -/
def parseIPv4Loop : Nat → Nat → List Nat → Option (List Nat × List Nat)
  | 0, _, s => some ([], s)
  | k + 1, i, s =>
    if s.length = 0 then none
    else if i > 0 ∧ s.head? ≠ some 46 then none
    else
      let s1 := if i > 0 then s.tail else s
      match dtoi s1 with
      | (n, c, ok) =>
        if !ok || n > 0xFF then none
        else
          match parseIPv4Loop k (i + 1) (s1.drop c) with
          | none => none
          | some (p, rest) => some (n :: p, rest)

/-- Go: `parseIPv4`, an address `d.d.d.d`; `[]` is `nil`. -/
def parseIPv4 (s : List Nat) : IP :=
  match parseIPv4Loop IPv4len 0 s with
  | some ([a, b, c, d], []) => IPv4 a b c d
  | _ => []

/-- Main loop of `parseIPv6`.  `ip` holds the bytes `ip[0..i)` written so far
(so `i = ip.length`), `ellipsis` is the position of the ellipsis or `-1`.
The result is the state at loop exit, `none` is `return nil`.  Every iteration
that continues advances `i` by two, so eight iterations reach `i = IPv6len`. -/
def parseIPv6Loop : Nat → List Nat → Int → List Nat → Option (List Nat × Int × List Nat)
  | 0, ip, ellipsis, s => some (ip, ellipsis, s)
  | fuel + 1, ip, ellipsis, s =>
    if ¬ ip.length < IPv6len then some (ip, ellipsis, s)
    else
      match xtoi s with
      | (n, c, ok) =>
        if !ok || n > 0xFFFF then none
        else if c < s.length ∧ s.getD c 0 = 46 then
          if ellipsis < 0 ∧ ip.length ≠ IPv6len - IPv4len then none
          else if ip.length + IPv4len > IPv6len then none
          else
            match parseIPv4 s with
            | [] => none
            | ip4 => some (ip ++ ip4.drop 12, ellipsis, [])
        else
          let ip1 := ip ++ [n / 256 % 256, n % 256]
          let s1 := s.drop c
          if s1.length = 0 then some (ip1, ellipsis, s1)
          else if s1.head? ≠ some 58 ∨ s1.length = 1 then none
          else
            let s2 := s1.tail
            if s2.head? = some 58 then
              if ellipsis ≥ 0 then none
              else
                let s3 := s2.tail
                if s3.length = 0 then some (ip1, (ip1.length : Int), s3)
                else parseIPv6Loop fuel ip1 (ip1.length : Int) s3
            else parseIPv6Loop fuel ip1 ellipsis s2

/-- The part of `parseIPv6` after the leading-ellipsis test. -/
def parseIPv6Body (ellipsis : Int) (s : List Nat) : IP :=
  match parseIPv6Loop 8 [] ellipsis s with
  | none => []
  | some (ip, ell, rest) =>
    if rest.length ≠ 0 then []
    else if ip.length < IPv6len then
      if ell < 0 then []
      else ip.take ell.toNat ++ List.replicate (IPv6len - ip.length) 0 ++ ip.drop ell.toNat
    else if ell ≥ 0 then []
    else ip

/-- Go: `parseIPv6` (no zone), a literal IPv6 address; `[]` is `nil`. -/
def parseIPv6 (s : List Nat) : IP :=
  match s with
  | 58 :: 58 :: rest =>
    if rest.length = 0 then List.replicate IPv6len 0 else parseIPv6Body 0 rest
  | _ => parseIPv6Body (-1) s

/-- Scan of `ParseIP` for the first `.` or `:`; `whole` is the full string. -/
def parseIPScan (whole : List Nat) : List Nat → IP
  | [] => []
  | c :: rest =>
    if c = 46 then parseIPv4 whole
    else if c = 58 then parseIPv6 whole
    else parseIPScan whole rest

/-- Go: `net.ParseIP`; `[]` is `nil`. -/
def ParseIP (s : String) : IP := parseIPScan (bytesOf s) (bytesOf s)

/-- Bytes of `CIDRMask`: `l` bytes remain, `n` one-bits remain. -/
def maskBytes : Nat → Nat → List Nat
  | 0, _ => []
  | l + 1, n =>
    if n ≥ 8 then 0xff :: maskBytes l (n - 8)
    else (0xff - 0xff >>> n) :: maskBytes l 0

/-- Go: `CIDRMask(ones, bits)`. -/
def CIDRMask (ones bits : Nat) : IPMask :=
  if bits ≠ 8 * IPv4len ∧ bits ≠ 8 * IPv6len then []
  else if ones > bits then []
  else maskBytes (bits / 8) ones

/-- Go: `allFF`. -/
def allFF (b : List Nat) : Bool := b.all (fun c => c = 0xff)

/-- Go: `isZeros`. -/
def isZeros (p : List Nat) : Bool := p.all (fun c => c = 0)

/-- Go: `(ip IP) To4()`; `[]` is `nil`. -/
def To4 (ip : IP) : IP :=
  if ip.length = IPv4len then ip
  else if ip.length = IPv6len ∧ isZeros (ip.take 10) ∧ ip.getD 10 0 = 0xff ∧ ip.getD 11 0 = 0xff then
    ip.drop 12
  else []

/-- Go: `(ip IP) Mask(mask IPMask)`; `[]` is `nil`. -/
def Mask (ip : IP) (mask : IPMask) : IP :=
  let mask1 :=
    if mask.length = IPv6len ∧ ip.length = IPv4len ∧ allFF (mask.take 12) then mask.drop 12
    else mask
  let ip1 :=
    if mask1.length = IPv4len ∧ ip.length = IPv6len ∧ ip.take 12 = v4InV6Prefix then ip.drop 12
    else ip
  if ip1.length ≠ mask1.length then []
  else List.zipWith (fun a b => a &&& b) ip1 mask1

/-- Go: `networkNumberAndMask`; `([], [])` is `(nil, nil)`. -/
def networkNumberAndMask (n : IPNet) : IP × IPMask :=
  let ip := if To4 n.IP = [] then n.IP else To4 n.IP
  if To4 n.IP = [] ∧ ip.length ≠ IPv6len then ([], [])
  else if n.Mask.length = IPv4len then
    if ip.length ≠ IPv4len then ([], []) else (ip, n.Mask)
  else if n.Mask.length = IPv6len then
    if ip.length = IPv4len then (ip, n.Mask.drop 12) else (ip, n.Mask)
  else ([], [])

/-- Comparison loop of `Contains` over `nn[i]`, `m[i]`, `ip[i]`. -/
def containsLoop : List Nat → List Nat → List Nat → Bool
  | n :: nn, m :: ms, x :: ip => if n &&& m ≠ x &&& m then false else containsLoop nn ms ip
  | _, _, _ => true

/-- Go: `(n *IPNet) Contains(ip IP)`. -/
def Contains (n : IPNet) (ip : IP) : Bool :=
  match networkNumberAndMask n with
  | (nn, m) =>
    let ip1 := if To4 ip ≠ [] then To4 ip else ip
    if ip1.length ≠ nn.length then false
    else containsLoop nn m ip1

/-- Go: `bytealg.IndexByteString`, as the pair of the text before and after the
first occurrence of `c`. -/
def splitAtByte (c : Nat) : List Nat → Option (List Nat × List Nat)
  | [] => none
  | x :: rest =>
    if x = c then some ([], rest)
    else match splitAtByte c rest with
      | none => none
      | some (a, b) => some (x :: a, b)

/-- Go: `net.ParseCIDR`, its `*IPNet` result; `none` is the `ParseError`. -/
def ParseCIDR (s : String) : Option IPNet :=
  match splitAtByte 47 (bytesOf s) with
  | none => none
  | some (addr, mask) =>
    let ip4 := parseIPv4 addr
    let iplen := if ip4 = [] then IPv6len else IPv4len
    let ip := if ip4 = [] then parseIPv6 addr else ip4
    match dtoi mask with
    | (n, i, ok) =>
      if ip = [] ∨ !ok ∨ i ≠ mask.length ∨ n > 8 * iplen then none
      else some { IP := Mask ip (CIDRMask n (8 * iplen)), Mask := CIDRMask n (8 * iplen) }

end Net

/-! ## `config`: data model -/

/-- Modelled from the spec: the declaration of `config.TokenDetail` (a
whitelisted network in CIDR notation and the token issued for it). -/
structure TokenDetail where
  WhitelistedNetwork : String
  Token : String
deriving DecidableEq, Repr

/-- Modelled from the spec: the declaration of `config.Project` (identity,
secret, hook references and the token store). -/
structure Project where
  UUID : String
  Name : String
  Secret : String
  MaxArgs : Int
  Hooks : List String
  PreHook : String
  PostHook : String
  ErrorHook : String
  WorkDir : String
  Tokens : List TokenDetail
deriving DecidableEq, Repr

/-- Modelled from the spec: the declaration of `config.Configuration`, the
persisted document with its sequence of projects. -/
structure Configuration where
  Projects : List Project
deriving DecidableEq, Repr

/-- Go: `(tokenDetail *TokenDetail) containsIP` (config/functions.go).  The
diagnostic `fmt.Println(err)` on a malformed network is not part of the
result. -/
def TokenDetail.containsIP (tokenDetail : TokenDetail) (clientIP : String) : Bool :=
  match Net.ParseCIDR tokenDetail.WhitelistedNetwork with
  | none => false
  | some ipNet => Net.Contains ipNet (Net.ParseIP clientIP)

/-- Loop of `ValidateToken` over `project.Tokens`. -/
def validateTokenLoop (project : Project) (clientIP tokenHash : String) : List TokenDetail → Bool
  | [] => false
  | token :: rest =>
    if token.containsIP clientIP then
      tokenHash == generateHash (project.Name ++ project.Secret ++ token.Token)
    else validateTokenLoop project clientIP tokenHash rest

/-- Go: `(project *Project) ValidateToken` (config/functions.go). -/
def Project.ValidateToken (project : Project) (clientIP tokenHash : String) : Bool :=
  validateTokenLoop project clientIP tokenHash project.Tokens


/-! ## Errors, file system, process state -/

/-- Error numbers other than `ENOENT`. -/
inductive Fault
  | EACCES
  | EISDIR
  | ELOOP
  | ENAMETOOLONG
  | ENOSPC
  | ENOTDIR
  | EROFS
deriving DecidableEq, Repr

/-- Go: `syscall.Errno`, split into `ENOENT` and the rest. -/
inductive Errno
  | ENOENT
  | other (f : Fault)
deriving DecidableEq, Repr

/-- Go `error` values that occur: `errors.New(text)`, an `*os.PathError`, an
error of `yaml.Marshal`.  The `nil` error is `none : Option GoError`. -/
inductive GoError
  | errorsNew (text : String)
  | pathError (op path : String) (errno : Errno)
  | yamlError (text : String)
deriving DecidableEq, Repr

def Fault.text : Fault → String
  | .EACCES => "permission denied"
  | .EISDIR => "is a directory"
  | .ELOOP => "too many levels of symbolic links"
  | .ENAMETOOLONG => "file name too long"
  | .ENOSPC => "no space left on device"
  | .ENOTDIR => "not a directory"
  | .EROFS => "read-only file system"

def Errno.text : Errno → String
  | .ENOENT => "no such file or directory"
  | .other f => f.text

/-- Go: the method `Error()` of an error value. -/
def GoError.Error : GoError → String
  | .errorsNew text => text
  | .pathError op path errno => op ++ " " ++ path ++ ": " ++ errno.text
  | .yamlError text => text

/-- The part of the file system the program touches.  `content path` is the
bytes of the file at `path`, `none` when there is no file; `statFault path` is
the error with which `stat` fails there for a reason other than absence;
`openFault path` makes opening for writing fail; `writeFault path` makes the
write fail after the given number of bytes. -/
structure FileSystem where
  content : String → Option (List Nat)
  statFault : String → Option Fault
  openFault : String → Option Errno
  writeFault : String → Option (Fault × Nat)

/-- Go: `os.Stat`, its error result. -/
def osStat (fs : FileSystem) (name : String) : Option GoError :=
  match fs.statFault name with
  | some f => some (.pathError "stat" name (.other f))
  | none =>
    match fs.content name with
    | none => some (.pathError "stat" name .ENOENT)
    | some _ => none

/-- Go: `os.IsNotExist`. -/
def osIsNotExist : Option GoError → Bool
  | some (.pathError _ _ .ENOENT) => true
  | _ => false

/-- The file system with the content at `name` replaced. -/
def FileSystem.store (fs : FileSystem) (name : String) (data : List Nat) : FileSystem :=
  { fs with content := fun p => if p = name then some data else fs.content p }

/-- Go: `ioutil.WriteFile(filename, data, 0644)`: open with
`O_WRONLY|O_CREATE|O_TRUNC`, write, close. -/
def ioutilWriteFile (fs : FileSystem) (filename : String) (data : List Nat) :
    Option GoError × FileSystem :=
  match fs.openFault filename with
  | some e => (some (.pathError "open" filename e), fs)
  | none =>
    match fs.writeFault filename with
    | some (f, n) => (some (.pathError "write" filename (.other f)), fs.store filename (data.take n))
    | none => (none, fs.store filename data)

/-- How a command ends: it returns, the process exits with a status, or the
Go run time panics. -/
inductive Outcome
  | returned
  | exit (code : Nat)
  | panic (text : String)
deriving DecidableEq, Repr

/-- Calls into other packages that are recorded. -/
inductive Call
  | FindProjectWithUUID (uuid : String)
  | AddProject (cfgFile : String) (project : Project)
deriving DecidableEq, Repr

/-- State a command acts on: the file system, the text written to standard
output, the recorded calls (oldest first). -/
structure World where
  fs : FileSystem
  stdout : List String
  calls : List Call

def World.print (w : World) (text : String) : World :=
  { w with stdout := w.stdout ++ [text] }

def World.call (w : World) (c : Call) : World :=
  { w with calls := w.calls ++ [c] }

/-! ## `config/functions.go`: `UpdateConfiguration` -/

/-- Go: `UpdateConfiguration` (config/functions.go).  `marshal` is
`yaml.Marshal` on a `Configuration`; `ErrorFileExists` is the message constant
of package `config`. -/
def UpdateConfiguration (marshal : Configuration → Except String (List Nat))
    (ErrorFileExists : String) (fs : FileSystem)
    (cfgFile : String) (configuration : Configuration) (overwrite : Bool) :
    Option GoError × FileSystem :=
  match marshal configuration with
  | .error text => (some (.yamlError text), fs)
  | .ok configBytes =>
    if osIsNotExist (osStat fs cfgFile) || overwrite then
      match ioutilWriteFile fs cfgFile configBytes with
      | (some err, fs1) => (some err, fs1)
      | (none, fs1) => (none, fs1)
    else (some (.errorsNew ErrorFileExists), fs)

/-! ## `cmd/regenerate.go` -/

/-- Modelled from the spec: `config.FindProjectWithUUID`, a linear scan of the
stored project collection for the UUID, failing with `notFound` when no
project has it. -/
def FindProjectWithUUID (notFound : GoError) (stored : Configuration) (uuid : String) :
    Except GoError Project :=
  match stored.Projects.find? (fun p => p.UUID == uuid) with
  | some p => .ok p
  | none => .error notFound

/-- Modelled from the spec: `(project *Project) GetHash(i)`, the verification
hash of the `i`-th token, recomputed from name, secret and token. -/
def Project.GetHash (project : Project) (i : Nat) : String :=
  generateHash (project.Name ++ project.Secret ++ (project.Tokens.getD i ⟨"", ""⟩).Token)

/-- Go: `regenerate` (cmd/regenerate.go).  `find` is
`config.FindProjectWithUUID`, `ErrorInvalidUUID` the message constant of
package `constants`.  The result is the pair `(*config.Project, error)`. -/
def regenerate (find : String → Except GoError Project) (ErrorInvalidUUID : String)
    (uuid : String) (w : World) : (Option Project × Option GoError) × World :=
  if uuid ≠ "" then
    match find uuid with
    | .error err =>
      ((none, some err),
        (w.call (.FindProjectWithUUID uuid)).print ("Project with UUID " ++ uuid ++ " not found.\n"))
    | .ok project => ((some project, none), w.call (.FindProjectWithUUID uuid))
  else ((none, some (.errorsNew ErrorInvalidUUID)), w)

/-- Lines printed by the loop of `regenerateCmd.Run`:
`fmt.Println(network, ": ", hash)` for the tokens from index `i` on. -/
def printHashes (project : Project) : Nat → List TokenDetail → List String
  | _, [] => []
  | i, token :: rest =>
    (token.WhitelistedNetwork ++ " " ++ ": " ++ " " ++ project.GetHash i ++ "\n")
      :: printHashes project (i + 1) rest

/-- Go: `regenerateCmd.Run` (cmd/regenerate.go) on `args[0] = uuid`. -/
def regenerateCmdRun (find : String → Except GoError Project) (ErrorInvalidUUID : String)
    (uuid : String) (w : World) : Outcome × World :=
  match regenerate find ErrorInvalidUUID uuid w with
  | ((_, some err), w1) =>
    (.exit 1, w1.print ("Error while regenerating: " ++ " " ++ err.Error ++ "\n"))
  | ((none, none), w1) => (.panic "invalid memory address or nil pointer dereference", w1)
  | ((some project, none), w1) =>
    (.returned, { w1 with stdout := w1.stdout ++ printHashes project 0 project.Tokens })

/-! ## `cmd/add.go` -/

/-- The flag variables of `cmd/add.go`. -/
structure AddFlags where
  name : String
  maxargs : Int
  hooks : List String
  preHook : String
  postHook : String
  errorHook : String
  workDir : String
  cidr : List String
deriving DecidableEq, Repr

/-- Values drawn by the random sources while a project is built. -/
structure Fresh where
  uuid : String
  secret : String
  token : Nat → String

/-- Tokens for the networks from index `i` on. -/
def newTokens (fresh : Fresh) : Nat → List String → List TokenDetail
  | _, [] => []
  | i, c :: rest => { WhitelistedNetwork := c, Token := fresh.token i } :: newTokens fresh (i + 1) rest

/-- Modelled from the spec: `config.NewProject(cidr...)`, a project with a new
UUID and one freshly generated token per requested network. -/
def NewProject (fresh : Fresh) (cidr : List String) : Project :=
  { UUID := fresh.uuid, Name := "", Secret := fresh.secret, MaxArgs := 0, Hooks := [],
    PreHook := "", PostHook := "", ErrorHook := "", WorkDir := "",
    Tokens := newTokens fresh 0 cidr }

/-- Modelled from the spec: `config.NewHooks(hooks...)`, the hook references
as stored in the project. -/
def NewHooks (hooks : List String) : List String := hooks

/-- Modelled from the spec: `(project *Project) ValidateProjectConfiguration`:
the name is non-empty, every network parses as a CIDR, `MaxArgs` is not
negative; otherwise the `InvalidConfiguration` error. -/
def Project.ValidateProjectConfiguration (ErrorInvalidConfiguration : String)
    (project : Project) : Option GoError :=
  if project.Name ≠ "" ∧
      project.Tokens.all (fun t => (Net.ParseCIDR t.WhitelistedNetwork).isSome) = true ∧
      0 ≤ project.MaxArgs then none
  else some (.errorsNew ErrorInvalidConfiguration)

/-- The project `addCmd.Run` builds from the flags. -/
def buildProject (fresh : Fresh) (flags : AddFlags) : Project :=
  { NewProject fresh flags.cidr with
    Name := flags.name, MaxArgs := flags.maxargs, Hooks := NewHooks flags.hooks,
    PreHook := flags.preHook, PostHook := flags.postHook, ErrorHook := flags.errorHook,
    WorkDir := flags.workDir }

/-- Go: `addCmd.Run` (cmd/add.go) after `cmd.ParseFlags`.  `validate` is
`ValidateProjectConfiguration`, `addProject` is `manage.AddProject` acting on
the file system.  `err.Error()` is evaluated before the comparison, so a
`nil` result of the validation is a nil dereference. -/
def addCmdRun (ErrorInvalidConfiguration : String) (validate : Project → Option GoError)
    (addProject : String → Project → FileSystem → Option GoError × FileSystem)
    (fresh : Fresh) (cfgFile : String) (flags : AddFlags) (w : World) : Outcome × World :=
  let project := buildProject fresh flags
  match validate project with
  | none => (.panic "invalid memory address or nil pointer dereference", w)
  | some err =>
    if err.Error = ErrorInvalidConfiguration then (.exit 1, w.print (err.Error ++ "\n"))
    else
      match addProject cfgFile project w.fs with
      | (some err1, fs1) =>
        (.exit 1, ({ w with fs := fs1 }.call (.AddProject cfgFile project)).print (err1.Error ++ "\n"))
      | (none, fs1) => (.returned, { w with fs := fs1 }.call (.AddProject cfgFile project))

/-! ## SHA-256 in the words of FIPS 180-4

The Secure Hash Standard, written down independently of the Go code: the
functions of §4.1.2, the padding of §5.1.1, the message schedule and the hash
computation of §6.2.2, indexed by block number `i` and step `t`. -/

namespace FIPS180

/-- The first sixty-four prime numbers. -/
def primes : List Nat :=
  [2, 3, 5, 7, 11, 13, 17, 19, 23, 29, 31, 37, 41, 43, 47, 53,
   59, 61, 67, 71, 73, 79, 83, 89, 97, 101, 103, 107, 109, 113, 127, 131,
   137, 139, 149, 151, 157, 163, 167, 173, 179, 181, 191, 193, 197, 199, 211, 223,
   227, 229, 233, 239, 241, 251, 257, 263, 269, 271, 277, 281, 283, 293, 307, 311]

/-- The word `w` is the first thirty-two bits of the fractional part of the
`k`-th root of `p`: for the integer part `c`, the number `c + w / 2 ^ 32` is
the root rounded down to thirty-two binary places. -/
def IsRootFraction (k p w : Nat) : Prop :=
  w < 2 ^ 32 ∧ ∃ c, c < 32 ∧
    (c * 2 ^ 32 + w) ^ k ≤ p * 2 ^ (32 * k) ∧ p * 2 ^ (32 * k) < (c * 2 ^ 32 + w + 1) ^ k

/-- `ROTR n x`, the circular right shift of a 32-bit word. -/
def ROTR (n x : Nat) : Nat := (x >>> n ||| x <<< (32 - n)) % 2 ^ 32

/-- `SHR n x`, the right shift. -/
def SHR (n x : Nat) : Nat := x >>> n

def Ch (x y z : Nat) : Nat := (x &&& y) ^^^ ((2 ^ 32 - 1 - x % 2 ^ 32) &&& z)

def Maj (x y z : Nat) : Nat := (x &&& y) ^^^ (x &&& z) ^^^ (y &&& z)

def Sigma0 (x : Nat) : Nat := ROTR 2 x ^^^ ROTR 13 x ^^^ ROTR 22 x

def Sigma1 (x : Nat) : Nat := ROTR 6 x ^^^ ROTR 11 x ^^^ ROTR 25 x

def sigma0 (x : Nat) : Nat := ROTR 7 x ^^^ ROTR 18 x ^^^ SHR 3 x

def sigma1 (x : Nat) : Nat := ROTR 17 x ^^^ ROTR 19 x ^^^ SHR 10 x

/-- The round constant of step `t`. -/
def K (t : Nat) : Nat := SHA256.K.getD t 0

/-- The initial hash value. -/
def H0 : SHA256.Vars :=
  { a := 0x6a09e667, b := 0xbb67ae85, c := 0x3c6ef372, d := 0xa54ff53a,
    e := 0x510e527f, f := 0x9b05688c, g := 0x1f83d9ab, h := 0x5be0cd19 }

/-- Number of zero bytes of the padding after the byte `0x80`: the smallest
`z` with `len + 1 + z ≡ 56 (mod 64)`, that is, in bits, the smallest `k` with
`l + 1 + k ≡ 448 (mod 512)`. -/
def zeroBytes (len : Nat) : Nat :=
  Nat.find (p := fun z => (len + 1 + z) % 64 = 56) ⟨(119 - len % 64) % 64, by omega⟩

/-- The padded message: the message, the bit `1`, the zero bits, and the
length of the message in bits as a 64-bit big-endian number. -/
def padded (msg : List Nat) : List Nat :=
  msg ++ [0x80] ++ List.replicate (zeroBytes msg.length) 0
    ++ (List.range 8).map (fun j => 8 * msg.length / 256 ^ (7 - j) % 256)

/-- The word `M j` of block `i` of the padded message `p`. -/
def M (p : List Nat) (i j : Nat) : Nat :=
  p.getD (64 * i + 4 * j) 0 * 2 ^ 24 + p.getD (64 * i + 4 * j + 1) 0 * 2 ^ 16
    + p.getD (64 * i + 4 * j + 2) 0 * 2 ^ 8 + p.getD (64 * i + 4 * j + 3) 0

/-- The message schedule `W t` of a block with words `m`. -/
def W (m : Nat → Nat) (t : Nat) : Nat :=
  if h : t < 16 then m t
  else (sigma1 (W m (t - 2)) + W m (t - 7) + sigma0 (W m (t - 15)) + W m (t - 16)) % 2 ^ 32
termination_by t
decreasing_by all_goals omega

/-- Step `t` on the working variables. -/
def step (w : Nat → Nat) (t : Nat) (v : SHA256.Vars) : SHA256.Vars :=
  let T1 := (v.h + Sigma1 v.e + Ch v.e v.f v.g + K t + w t) % 2 ^ 32
  let T2 := (Sigma0 v.a + Maj v.a v.b v.c) % 2 ^ 32
  { a := (T1 + T2) % 2 ^ 32, b := v.a, c := v.b, d := v.c,
    e := (v.d + T1) % 2 ^ 32, f := v.e, g := v.f, h := v.g }

/-- The working variables after steps `0, ..., t - 1`. -/
def steps (w : Nat → Nat) : Nat → SHA256.Vars → SHA256.Vars
  | 0, v => v
  | t + 1, v => step w t (steps w t v)

/-- The hash value `H i` after `i` blocks of the padded message `p`. -/
def H (p : List Nat) : Nat → SHA256.Vars
  | 0 => H0
  | i + 1 =>
    let v := steps (W (M p i)) 64 (H p i)
    { a := ((H p i).a + v.a) % 2 ^ 32, b := ((H p i).b + v.b) % 2 ^ 32,
      c := ((H p i).c + v.c) % 2 ^ 32, d := ((H p i).d + v.d) % 2 ^ 32,
      e := ((H p i).e + v.e) % 2 ^ 32, f := ((H p i).f + v.f) % 2 ^ 32,
      g := ((H p i).g + v.g) % 2 ^ 32, h := ((H p i).h + v.h) % 2 ^ 32 }

/-- The message digest: the eight words of the final hash value, big-endian. -/
def digest (msg : List Nat) : List Nat :=
  let v := H (padded msg) ((padded msg).length / 64)
  [v.a, v.b, v.c, v.d, v.e, v.f, v.g, v.h].flatMap
    (fun x => (List.range 4).map (fun j => x / 256 ^ (3 - j) % 256))

end FIPS180

/-! ## The claims in the words of the specification -/

/-- The bits of a byte, most significant first. -/
def byteBits (b : Nat) : List Bool := (List.range 8).map (fun i => b.testBit (7 - i))

/-- The bit pattern of a byte sequence. -/
def bitsOf (bs : List Nat) : List Bool := bs.flatMap byteBits

/-! ## Base 64 in the words of RFC 4648 -/

namespace RFC4648

/-- Table 2 of RFC 4648, the URL and filename safe alphabet. -/
def alphabet (v : Nat) : Char :=
  if v < 26 then Char.ofNat (65 + v)
  else if v < 52 then Char.ofNat (97 + (v - 26))
  else if v < 62 then Char.ofNat (48 + (v - 52))
  else if v = 62 then '-'
  else '_'

/-- The number written by a bit string, most significant bit first. -/
def valueOf (bits : List Bool) : Nat :=
  bits.foldl (fun n b => 2 * n + (if b then 1 else 0)) 0

/-- The `k`-th group of six bits of a bit string, as a number; bits beyond
the end of the string are zero. -/
def sextet (bits : List Bool) (k : Nat) : Nat :=
  valueOf ((List.range 6).map (fun j => bits.getD (6 * k + j) false))

/-- Base 64 encoding with padding: the input bits in groups of six, each group
written with the alphabet, then `=` up to a multiple of four characters. -/
def encode (src : List Nat) : List Char :=
  (List.range ((8 * src.length + 5) / 6)).map (fun k => alphabet (sextet (bitsOf src) k))
    ++ List.replicate ((4 - (8 * src.length + 5) / 6 % 4) % 4) '='

end RFC4648

/-- Prefix length of a mask: the number of its leading one bits. -/
def prefixLength (mask : List Nat) : Nat := ((bitsOf mask).takeWhile id).length

/-- An address in the form of its own family: the four bytes of an IPv4
address (also when given in the IPv4-mapped 16-byte form), else the sixteen
bytes of an IPv6 address. -/
def addressOf (ip : Net.IP) : Net.IP := if Net.To4 ip ≠ [] then Net.To4 ip else ip

/-- The address's bits equal the network prefix within the prefix length: the
first `prefixLength` bits of the address are the first `prefixLength` bits of
the network number. -/
def prefixAgrees (n : Net.IPNet) (ip : Net.IP) : Bool :=
  decide ((bitsOf (addressOf ip)).take (prefixLength (Net.networkNumberAndMask n).2)
    = (bitsOf (Net.networkNumberAndMask n).1).take (prefixLength (Net.networkNumberAndMask n).2))

/-- The address and the network number belong to the same family (both four
bytes or both sixteen bytes). -/
def sameFamily (n : Net.IPNet) (ip : Net.IP) : Bool :=
  decide ((addressOf ip).length = (Net.networkNumberAndMask n).1.length)

/-- The claim C2 as stated: the CIDR parses to a network prefix, the IP parses
to an address, and the address's bits equal the network prefix within the
prefix length. -/
def containsAsStated (cidr ip : String) : Bool :=
  match Net.ParseCIDR cidr with
  | none => false
  | some n => decide (Net.ParseIP ip ≠ []) && prefixAgrees n (Net.ParseIP ip)

/-- The claim C2 as amended: as stated, and the address is of the family of
the network. -/
def containsAmended (cidr ip : String) : Bool :=
  match Net.ParseCIDR cidr with
  | none => false
  | some n =>
    decide (Net.ParseIP ip ≠ []) && sameFamily n (Net.ParseIP ip) && prefixAgrees n (Net.ParseIP ip)

/-- The claim C3 as stated, at one stored project: the project the operation
yields has, at every position, a token value different from the stored one. -/
def TokensAllReplaced (stored : Project) (result : Option Project × Option GoError) : Prop :=
  ∀ q, result = (some q, none) →
    ∀ i, i < stored.Tokens.length →
      (q.Tokens.getD i ⟨"", ""⟩).Token ≠ (stored.Tokens.getD i ⟨"", ""⟩).Token

/-- The claim C10 as stated, at two projects and a client IP: a hash that
`ValidateToken` accepts for the first project is not accepted for the
second. -/
def HashNotReusable (p1 p2 : Project) (clientIP : String) : Prop :=
  ∀ tokenHash, p1.ValidateToken clientIP tokenHash = true →
    p2.ValidateToken clientIP tokenHash = false

/-! ## Concrete data used in the examples -/

def projectAB : Project :=
  { UUID := "u-ab", Name := "ab", Secret := "c", MaxArgs := 0, Hooks := [],
    PreHook := "", PostHook := "", ErrorHook := "", WorkDir := "",
    Tokens := [{ WhitelistedNetwork := "0.0.0.0/0", Token := "tok" }] }

def projectCD : Project :=
  { UUID := "u-cd", Name := "cd", Secret := "e", MaxArgs := 0, Hooks := [],
    PreHook := "", PostHook := "", ErrorHook := "", WorkDir := "",
    Tokens := [{ WhitelistedNetwork := "10.0.0.0/8", Token := "tok" }] }

def projectA : Project :=
  { UUID := "u-a", Name := "a", Secret := "bc", MaxArgs := 0, Hooks := [],
    PreHook := "", PostHook := "", ErrorHook := "", WorkDir := "",
    Tokens := [{ WhitelistedNetwork := "0.0.0.0/0", Token := "tok" }] }

def exampleTokens : List TokenDetail :=
  [{ WhitelistedNetwork := "10.0.0.0/8", Token := "tok-1" },
   { WhitelistedNetwork := "0.0.0.0/0", Token := "tok-2" }]

def exampleProject : Project :=
  { UUID := "u-1", Name := "svc-a", Secret := "s3cr3t", MaxArgs := 0, Hooks := [],
    PreHook := "", PostHook := "", ErrorHook := "", WorkDir := "/srv",
    Tokens := exampleTokens }

def exampleStore : Configuration := { Projects := [exampleProject] }

def exampleNotFound : GoError := .errorsNew "project not found"

def emptyFS : FileSystem :=
  { content := fun _ => none, statFault := fun _ => none,
    openFault := fun _ => none, writeFault := fun _ => none }

def emptyWorld : World := { fs := emptyFS, stdout := [], calls := [] }

def exampleFresh : Fresh := { uuid := "u-2", secret := "k", token := fun _ => "t" }

def exampleFlags : AddFlags :=
  { name := "svc-a", maxargs := 0, hooks := [], preHook := "", postHook := "",
    errorHook := "", workDir := "/srv", cidr := ["10.0.0.0/8", "192.168.0.0/16"] }

/-- A file system in which `config.yaml` exists with the given bytes. -/
def fsWithConfig (old : List Nat) : FileSystem := emptyFS.store "config.yaml" old

/-- A file system in which `/etc/hostname` is a regular file, so that `stat` of
a path below it fails with `ENOTDIR` and no file is there. -/
def fsNotDir : FileSystem :=
  { emptyFS with
    statFault := fun p => if p = "/etc/hostname/config.yaml" then some .ENOTDIR else none }

def exampleMarshal : Configuration → Except String (List Nat) :=
  fun _ => .ok (bytesOf "projects: []\n")

/-! ## Theorems -/

theorem Base64.enc_mem (v : Nat) : Base64.enc v ∈ Base64.encodeURL := by
  unfold Base64.enc
  by_cases h : v < Base64.encodeURL.length
  · rw [List.getD_eq_getElem _ _ h]
    exact List.getElem_mem h
  · rw [List.getD_eq_default _ _ (Nat.le_of_not_lt h)]
    decide

theorem Base64.pad_not_mem : '=' ∉ Base64.encodeURL := by decide

theorem Base64.enc_ne_pad (v : Nat) : Base64.enc v ≠ '=' :=
  fun h => Base64.pad_not_mem (h ▸ Base64.enc_mem v)

theorem Base64.indexOf_enc : ∀ v, v < 64 → Base64.encodeURL.indexOf (Base64.enc v) = v := by
  decide

theorem Base64.enc_inj {a b : Nat} (ha : a < 64) (hb : b < 64)
    (h : Base64.enc a = Base64.enc b) : a = b := by
  have h1 := Base64.indexOf_enc a ha
  have h2 := Base64.indexOf_enc b hb
  rw [h] at h1
  omega

theorem Base64.encode_inj : ∀ (l1 l2 : List Nat), (∀ b ∈ l1, b < 256) → (∀ b ∈ l2, b < 256) →
    Base64.encode l1 = Base64.encode l2 → l1 = l2
  | [], [], _, _, _ => rfl
  | [], [_], _, _, h => by simp [Base64.encode] at h
  | [], [_, _], _, _, h => by simp [Base64.encode] at h
  | [], _ :: _ :: _ :: _, _, _, h => by simp [Base64.encode] at h
  | [_], [], _, _, h => by simp [Base64.encode] at h
  | [a], [a'], h1, h2, h => by
    simp only [Base64.encode, List.cons.injEq, and_true] at h
    have ha := h1 a (by simp)
    have ha' := h2 a' (by simp)
    have e1 := Base64.enc_inj (by omega) (by omega) h.1
    have e2 := Base64.enc_inj (by omega) (by omega) h.2
    have : a = a' := by omega
    rw [this]
  | [_], [_, _], _, _, h => by
    simp only [Base64.encode, List.cons.injEq] at h
    exact absurd h.2.2.1.symm (Base64.enc_ne_pad _)
  | [_], _ :: _ :: _ :: _, _, _, h => by
    simp only [Base64.encode, List.cons.injEq] at h
    exact absurd h.2.2.1.symm (Base64.enc_ne_pad _)
  | [_, _], [], _, _, h => by simp [Base64.encode] at h
  | [_, _], [_], _, _, h => by
    simp only [Base64.encode, List.cons.injEq] at h
    exact absurd h.2.2.1 (Base64.enc_ne_pad _)
  | [a, b], [a', b'], h1, h2, h => by
    simp only [Base64.encode, List.cons.injEq, and_true] at h
    have ha := h1 a (by simp)
    have hb := h1 b (by simp)
    have ha' := h2 a' (by simp)
    have hb' := h2 b' (by simp)
    have e1 := Base64.enc_inj (by omega) (by omega) h.1
    have e2 := Base64.enc_inj (by omega) (by omega) h.2.1
    have e3 := Base64.enc_inj (by omega) (by omega) h.2.2
    have : a = a' := by omega
    have : b = b' := by omega
    simp [*]
  | [_, _], _ :: _ :: _ :: _, _, _, h => by
    simp only [Base64.encode, List.cons.injEq] at h
    exact absurd h.2.2.2.1.symm (Base64.enc_ne_pad _)
  | _ :: _ :: _ :: _, [], _, _, h => by simp [Base64.encode] at h
  | _ :: _ :: _ :: _, [_], _, _, h => by
    simp only [Base64.encode, List.cons.injEq] at h
    exact absurd h.2.2.1 (Base64.enc_ne_pad _)
  | _ :: _ :: _ :: _, [_, _], _, _, h => by
    simp only [Base64.encode, List.cons.injEq] at h
    exact absurd h.2.2.2.1 (Base64.enc_ne_pad _)
  | a :: b :: c :: r1, a' :: b' :: c' :: r2, h1, h2, h => by
    simp only [Base64.encode, List.cons.injEq] at h
    have ha := h1 a (by simp)
    have hb := h1 b (by simp)
    have hc := h1 c (by simp)
    have ha' := h2 a' (by simp)
    have hb' := h2 b' (by simp)
    have hc' := h2 c' (by simp)
    have e1 := Base64.enc_inj (by omega) (by omega) h.1
    have e2 := Base64.enc_inj (by omega) (by omega) h.2.1
    have e3 := Base64.enc_inj (by omega) (by omega) h.2.2.1
    have e4 := Base64.enc_inj (by omega) (by omega) h.2.2.2.1
    have ih := Base64.encode_inj r1 r2 (fun x hx => h1 x (by simp [hx])) (fun x hx => h2 x (by simp [hx]))
      h.2.2.2.2
    have : a = a' := by omega
    have : b = b' := by omega
    have : c = c' := by omega
    simp [*]

/-- The digest is the big-endian bytes of the eight state words. -/
theorem SHA256.sum_eq (msg : List Nat) :
    ∃ v : SHA256.Vars, SHA256.sum msg =
      SHA256.be32 v.a ++ SHA256.be32 v.b ++ SHA256.be32 v.c ++ SHA256.be32 v.d ++
      SHA256.be32 v.e ++ SHA256.be32 v.f ++ SHA256.be32 v.g ++ SHA256.be32 v.h :=
  ⟨_, rfl⟩

theorem SHA256.sum_length (msg : List Nat) : (SHA256.sum msg).length = 32 := by
  obtain ⟨v, hv⟩ := SHA256.sum_eq msg
  simp [hv, SHA256.be32]

theorem SHA256.be32_lt (n : Nat) : ∀ b ∈ SHA256.be32 n, b < 256 := by
  intro b hb
  simp only [SHA256.be32, List.mem_cons, List.mem_singleton, List.not_mem_nil, or_false] at hb
  rcases hb with h | h | h | h <;> rw [h] <;> exact Nat.mod_lt _ (by decide)

theorem SHA256.sum_lt (msg : List Nat) : ∀ b ∈ SHA256.sum msg, b < 256 := by
  obtain ⟨v, hv⟩ := SHA256.sum_eq msg
  intro b hb
  simp only [hv, List.mem_append] at hb
  rcases hb with ((((((h | h) | h) | h) | h) | h) | h) | h <;> exact SHA256.be32_lt _ b h

theorem Base64.encode_digest (src : List Nat) (h : src.length = 32) :
    Base64.encode src = (Base64.encode src).take 43 ++ ['='] ∧
    ((Base64.encode src).take 43).length = 43 ∧
    ∀ c ∈ (Base64.encode src).take 43, c ∈ Base64.encodeURL := by
  match src, h with
  | [b0, b1, b2, b3, b4, b5, b6, b7, b8, b9, b10, b11, b12, b13, b14, b15, b16, b17, b18, b19,
      b20, b21, b22, b23, b24, b25, b26, b27, b28, b29, b30, b31], _ =>
    simp [Base64.encode, Base64.enc_mem]

/-! ### SHA-256 and base 64 against their standards -/

section Standards
open SHA256

theorem SHA256.add32_eq (a b : Nat) : add32 a b = (a + b) % 2 ^ 32 := rfl

theorem SHA256.add32_add32_left (a b c : Nat) : add32 (add32 a b) c = (a + b + c) % 2 ^ 32 := by
  unfold add32; omega

theorem SHA256.rotr_eq (x n : Nat) : rotr x n = FIPS180.ROTR n x := rfl

theorem rangeMap_reverse_getD (f : Nat → Nat) (t i : Nat) (h : i < t) :
    ((List.range t).map f).reverse.getD i 0 = f (t - 1 - i) := by
  rw [List.getD_eq_getElem?_getD, List.getElem?_reverse (by simpa using h)]
  simp only [List.length_map, List.length_range, List.getElem?_map]
  rw [List.getElem?_range (by omega)]
  rfl

theorem FIPS180.W_lt (m : Nat → Nat) (t : Nat) (h : t < 16) : FIPS180.W m t = m t := by
  rw [FIPS180.W]; simp [h]

theorem FIPS180.W_ge (m : Nat → Nat) (t : Nat) (h : 16 ≤ t) :
    FIPS180.W m t = (FIPS180.sigma1 (FIPS180.W m (t - 2)) + FIPS180.W m (t - 7)
      + FIPS180.sigma0 (FIPS180.W m (t - 15)) + FIPS180.W m (t - 16)) % 2 ^ 32 := by
  rw [FIPS180.W]; simp [Nat.not_lt.mpr h]

theorem SHA256.extend_eq (m : Nat → Nat) : ∀ (n t : Nat), 16 ≤ t →
    extend n ((List.range t).map (FIPS180.W m)).reverse
      = ((List.range (t + n)).map (FIPS180.W m)).reverse
  | 0, t, _ => rfl
  | n + 1, t, ht => by
    have hnew : add32 (add32 (add32
          (rotr (((List.range t).map (FIPS180.W m)).reverse.getD 1 0) 17
            ^^^ rotr (((List.range t).map (FIPS180.W m)).reverse.getD 1 0) 19
            ^^^ (((List.range t).map (FIPS180.W m)).reverse.getD 1 0 >>> 10))
          (((List.range t).map (FIPS180.W m)).reverse.getD 6 0))
          (rotr (((List.range t).map (FIPS180.W m)).reverse.getD 14 0) 7
            ^^^ rotr (((List.range t).map (FIPS180.W m)).reverse.getD 14 0) 18
            ^^^ (((List.range t).map (FIPS180.W m)).reverse.getD 14 0 >>> 3)))
          (((List.range t).map (FIPS180.W m)).reverse.getD 15 0)
        = FIPS180.W m t := by
      rw [rangeMap_reverse_getD _ t 1 (by omega), rangeMap_reverse_getD _ t 6 (by omega),
        rangeMap_reverse_getD _ t 14 (by omega), rangeMap_reverse_getD _ t 15 (by omega),
        FIPS180.W_ge m t ht, SHA256.add32_add32_left, SHA256.add32_eq]
      have e1 : t - 1 - 1 = t - 2 := by omega
      have e2 : t - 1 - 6 = t - 7 := by omega
      have e3 : t - 1 - 14 = t - 15 := by omega
      have e4 : t - 1 - 15 = t - 16 := by omega
      rw [e1, e2, e3, e4]
      simp only [FIPS180.sigma1, FIPS180.sigma0, FIPS180.SHR, SHA256.rotr_eq]
      omega
    rw [extend, hnew]
    have hs : FIPS180.W m t :: ((List.range t).map (FIPS180.W m)).reverse
        = ((List.range (t + 1)).map (FIPS180.W m)).reverse := by
      rw [List.range_succ, List.map_append, List.reverse_append]
      rfl
    rw [hs, SHA256.extend_eq m n (t + 1) (by omega)]
    congr 3
    omega

theorem SHA256.blockWords_eq : ∀ (l : List Nat),
    blockWords l = (List.range (l.length / 4)).map
      (fun j => word (l.getD (4 * j) 0) (l.getD (4 * j + 1) 0) (l.getD (4 * j + 2) 0)
        (l.getD (4 * j + 3) 0))
  | [] => rfl
  | [_] => by simp [blockWords]
  | [_, _] => by simp [blockWords]
  | [_, _, _] => by simp [blockWords]
  | b0 :: b1 :: b2 :: b3 :: rest => by
    have hl : (b0 :: b1 :: b2 :: b3 :: rest).length / 4 = rest.length / 4 + 1 := by
      simp only [List.length_cons]; omega
    rw [blockWords, SHA256.blockWords_eq rest, hl, List.range_succ_eq_map, List.map_cons,
      List.map_map]
    refine congrArg₂ List.cons rfl ?_
    apply List.map_congr_left
    intro j _
    have e : ∀ c, 4 * (j + 1) + c = (4 * j + c) + 4 := by intro c; omega
    have e0 : 4 * (j + 1) = (4 * j) + 4 := by omega
    simp only [Function.comp, Nat.succ_eq_add_one, e, e0, List.getD_cons_succ]

theorem getD_take_drop (p : List Nat) (a k n : Nat) (hk : k < n) :
    ((p.drop a).take n).getD k 0 = p.getD (a + k) 0 := by
  simp only [List.getD_eq_getElem?_getD, List.getElem?_take, hk, if_true, List.getElem?_drop]

theorem SHA256.word_eq (b0 b1 b2 b3 : Nat) :
    word b0 b1 b2 b3 = b0 * 2 ^ 24 + b1 * 2 ^ 16 + b2 * 2 ^ 8 + b3 := by
  unfold word; ring

/-- The sixteen words of block `i` are the words `M i j` of the standard. -/
theorem SHA256.blockWords_block (p : List Nat) (i : Nat) (h : 64 * (i + 1) ≤ p.length) :
    blockWords ((p.drop (64 * i)).take 64) = (List.range 16).map (FIPS180.W (FIPS180.M p i)) := by
  have hl : ((p.drop (64 * i)).take 64).length = 64 := by
    rw [List.length_take, List.length_drop]; omega
  rw [SHA256.blockWords_eq, hl]
  apply List.map_congr_left
  intro j hj
  have hj' : j < 16 := List.mem_range.mp hj
  rw [FIPS180.W_lt _ _ hj', SHA256.word_eq, getD_take_drop _ _ _ _ (by omega),
    getD_take_drop _ _ _ _ (by omega), getD_take_drop _ _ _ _ (by omega),
    getD_take_drop _ _ _ _ (by omega)]
  simp only [FIPS180.M, Nat.add_assoc]

theorem SHA256.schedule_block (p : List Nat) (i : Nat) (h : 64 * (i + 1) ≤ p.length) :
    schedule ((p.drop (64 * i)).take 64) = (List.range 64).map (FIPS180.W (FIPS180.M p i)) := by
  unfold schedule
  rw [SHA256.blockWords_block p i h, SHA256.extend_eq _ 48 16 (le_refl _), List.reverse_reverse]

theorem SHA256.K_eq : K = (List.range 64).map FIPS180.K := by decide

theorem SHA256.round_eq (w : Nat → Nat) (t : Nat) (v : Vars) :
    round v (FIPS180.K t, w t) = FIPS180.step w t v := by
  simp only [round, FIPS180.step, FIPS180.Sigma0, FIPS180.Sigma1, FIPS180.Ch, FIPS180.Maj,
    SHA256.rotr_eq, not32, SHA256.add32_add32_left, SHA256.add32_eq]
  congr 1 <;> omega

theorem SHA256.foldl_round (w : Nat → Nat) (hs : Vars) : ∀ n : Nat,
    ((List.range n).map (fun t => (FIPS180.K t, w t))).foldl round hs = FIPS180.steps w n hs
  | 0 => rfl
  | n + 1 => by
    rw [List.range_succ, List.map_append, List.foldl_append, SHA256.foldl_round w hs n]
    simp only [List.map_cons, List.map_nil, List.foldl_cons, List.foldl_nil, FIPS180.steps]
    exact SHA256.round_eq w n _

theorem SHA256.compress_block (p : List Nat) (i : Nat) (h : 64 * (i + 1) ≤ p.length) :
    compress (FIPS180.H p i) ((p.drop (64 * i)).take 64) = FIPS180.H p (i + 1) := by
  unfold compress
  rw [SHA256.schedule_block p i h, SHA256.K_eq, List.zip_map', SHA256.foldl_round]
  simp only [FIPS180.H, SHA256.add32_eq]

theorem SHA256.blocks_eq (p : List Nat) : ∀ (n i : Nat), 64 * (i + n) ≤ p.length →
    blocks n (FIPS180.H p i) (p.drop (64 * i)) = FIPS180.H p (i + n)
  | 0, _, _ => rfl
  | n + 1, i, h => by
    have e : 64 * i + 64 = 64 * (i + 1) := by omega
    rw [blocks, SHA256.compress_block p i (by omega), List.drop_drop, e,
      SHA256.blocks_eq p n (i + 1) (by omega)]
    congr 1
    omega

theorem FIPS180.zeroBytes_eq (len : Nat) :
    FIPS180.zeroBytes len = if len % 64 < 56 then 55 - len % 64 else 64 + 55 - len % 64 := by
  unfold FIPS180.zeroBytes
  rw [Nat.find_eq_iff]
  constructor
  · split <;> omega
  · intro n hn
    split at hn <;> omega

theorem SHA256.be64_eq (n : Nat) :
    be64 (n * 8 % 2 ^ 64) = (List.range 8).map (fun j => 8 * n / 256 ^ (7 - j) % 256) := by
  have : List.range 8 = [0, 1, 2, 3, 4, 5, 6, 7] := by decide
  rw [this]
  simp only [be64, List.map_cons, List.map_nil]
  norm_num
  omega

theorem SHA256.pad_eq (msg : List Nat) : pad msg = FIPS180.padded msg := by
  unfold pad FIPS180.padded
  simp only [FIPS180.zeroBytes_eq, SHA256.be64_eq, List.append_assoc, List.singleton_append,
    List.cons_append, List.nil_append]

/-- The modelled `crypto/sha256` computes the message digest of FIPS 180-4. -/
theorem SHA256.sum_eq_digest (msg : List Nat) : sum msg = FIPS180.digest msg := by
  unfold sum FIPS180.digest
  simp only
  have hb := SHA256.blocks_eq (pad msg) ((pad msg).length / 64) 0
    (by have := Nat.div_mul_le_self (pad msg).length 64; omega)
  simp only [Nat.mul_zero, List.drop_zero, Nat.zero_add] at hb
  have h0 : FIPS180.H (pad msg) 0 = FIPS180.H0 := rfl
  rw [h0] at hb
  unfold FIPS180.H0 at hb
  rw [hb, SHA256.pad_eq]
  have : List.range 4 = [0, 1, 2, 3] := by decide
  simp only [be32, List.flatMap_cons, List.flatMap_nil, this, List.map_cons, List.map_nil,
    List.append_nil]
  norm_num


/-- The list `FIPS180.primes` is the primes below 312 in increasing order:
the first sixty-four prime numbers. -/
theorem FIPS180.primes_spec :
    FIPS180.primes.length = 64 ∧
    FIPS180.primes.Pairwise (fun a b => a < b) ∧
    ∀ n, n ∈ FIPS180.primes ↔ n < 312 ∧ Nat.Prime n := by
  have h : FIPS180.primes
      = (List.range 312).filter (fun n => @decide (Nat.Prime n) (Nat.decidablePrime1 n)) := by
    set_option maxRecDepth 100000 in
    set_option maxHeartbeats 4000000 in
    decide
  refine ⟨rfl, by decide, ?_⟩
  intro n
  rw [h, List.mem_filter, List.mem_range]
  simp

/-- The round constants are the first thirty-two bits of the fractional parts
of the cube roots of the first sixty-four primes. -/
theorem FIPS180.K_cube_roots :
    ∀ t, t < 64 → FIPS180.IsRootFraction 3 (FIPS180.primes.getD t 0) (FIPS180.K t) := by
  unfold FIPS180.IsRootFraction
  decide

/-- The initial hash value is the first thirty-two bits of the fractional
parts of the square roots of the first eight primes. -/
theorem FIPS180.H0_square_roots :
    ∀ i, i < 8 → FIPS180.IsRootFraction 2 (FIPS180.primes.getD i 0)
      ([FIPS180.H0.a, FIPS180.H0.b, FIPS180.H0.c, FIPS180.H0.d,
        FIPS180.H0.e, FIPS180.H0.f, FIPS180.H0.g, FIPS180.H0.h].getD i 0) := by
  unfold FIPS180.IsRootFraction
  decide

theorem RFC4648.alphabet_eq : ∀ v, v < 64 → RFC4648.alphabet v = Base64.enc v := by decide

theorem bitsOf_three (a b c : Nat) (rest : List Nat) :
    bitsOf (a :: b :: c :: rest) =
      a.testBit 7 :: a.testBit 6 :: a.testBit 5 :: a.testBit 4 :: a.testBit 3 :: a.testBit 2
        :: a.testBit 1 :: a.testBit 0
        :: b.testBit 7 :: b.testBit 6 :: b.testBit 5 :: b.testBit 4 :: b.testBit 3 :: b.testBit 2
        :: b.testBit 1 :: b.testBit 0
        :: c.testBit 7 :: c.testBit 6 :: c.testBit 5 :: c.testBit 4 :: c.testBit 3 :: c.testBit 2
        :: c.testBit 1 :: c.testBit 0 :: bitsOf rest := by
  rfl

theorem RFC4648.sextet_shift (x0 x1 x2 x3 x4 x5 x6 x7 x8 x9 x10 x11 x12 x13 x14 x15 x16 x17 x18
    x19 x20 x21 x22 x23 : Bool) (tail : List Bool) (k : Nat) :
    RFC4648.sextet (x0 :: x1 :: x2 :: x3 :: x4 :: x5 :: x6 :: x7 :: x8 :: x9 :: x10 :: x11
      :: x12 :: x13 :: x14 :: x15 :: x16 :: x17 :: x18 :: x19 :: x20 :: x21 :: x22 :: x23
      :: tail) (4 + k) = RFC4648.sextet tail k := by
  unfold RFC4648.sextet
  congr 1
  apply List.map_congr_left
  intro j _
  have e : 6 * (4 + k) + j = (6 * k + j) + 24 := by omega
  rw [e]
  rfl

theorem RFC4648.value_hi6 : ∀ a, a < 256 →
    RFC4648.valueOf [a.testBit 7, a.testBit 6, a.testBit 5, a.testBit 4, a.testBit 3, a.testBit 2]
      = a / 4 := by
  set_option maxRecDepth 100000 in decide

theorem RFC4648.value_lo2 : ∀ a, a < 256 →
    RFC4648.valueOf [a.testBit 1, a.testBit 0] = a % 4 := by
  set_option maxRecDepth 100000 in decide

theorem RFC4648.value_hi4 : ∀ a, a < 256 →
    RFC4648.valueOf [a.testBit 7, a.testBit 6, a.testBit 5, a.testBit 4] = a / 16 := by
  set_option maxRecDepth 100000 in decide

theorem RFC4648.value_lo4 : ∀ a, a < 256 →
    RFC4648.valueOf [a.testBit 3, a.testBit 2, a.testBit 1, a.testBit 0] = a % 16 := by
  set_option maxRecDepth 100000 in decide

theorem RFC4648.value_hi2 : ∀ a, a < 256 →
    RFC4648.valueOf [a.testBit 7, a.testBit 6] = a / 64 := by
  set_option maxRecDepth 100000 in decide

theorem RFC4648.value_lo6 : ∀ a, a < 256 →
    RFC4648.valueOf [a.testBit 5, a.testBit 4, a.testBit 3, a.testBit 2, a.testBit 1, a.testBit 0]
      = a % 64 := by
  set_option maxRecDepth 100000 in decide

theorem RFC4648.valueOf_append (l1 l2 : List Bool) :
    RFC4648.valueOf (l1 ++ l2) = RFC4648.valueOf l1 * 2 ^ l2.length + RFC4648.valueOf l2 := by
  unfold RFC4648.valueOf
  rw [List.foldl_append]
  generalize List.foldl (fun n b => 2 * n + (if b then 1 else 0)) 0 l1 = v
  induction l2 generalizing v with
  | nil => simp
  | cons b l2 ih =>
    rw [List.foldl_cons, ih, List.foldl_cons, ih (2 * 0 + (if b then 1 else 0)), List.length_cons]
    ring

theorem RFC4648.encode_three (a b c : Nat) (rest : List Nat)
    (ha : a < 256) (hb : b < 256) (hc : c < 256) :
    RFC4648.encode (a :: b :: c :: rest) =
      Base64.enc (a / 4) :: Base64.enc (a % 4 * 16 + b / 16) :: Base64.enc (b % 16 * 4 + c / 64)
        :: Base64.enc (c % 64) :: RFC4648.encode rest := by
  have hn : (8 * (a :: b :: c :: rest).length + 5) / 6 = 4 + (8 * rest.length + 5) / 6 := by
    simp only [List.length_cons]; omega
  have hp : (4 - (4 + (8 * rest.length + 5) / 6) % 4) % 4
      = (4 - (8 * rest.length + 5) / 6 % 4) % 4 := by omega
  have h4 : List.range 4 = [0, 1, 2, 3] := by decide
  unfold RFC4648.encode
  rw [hn, hp, List.range_add, List.map_append, List.map_map, h4, bitsOf_three]
  have s0 : RFC4648.sextet (a.testBit 7 :: a.testBit 6 :: a.testBit 5 :: a.testBit 4
      :: a.testBit 3 :: a.testBit 2 :: a.testBit 1 :: a.testBit 0
      :: b.testBit 7 :: b.testBit 6 :: b.testBit 5 :: b.testBit 4 :: b.testBit 3 :: b.testBit 2
      :: b.testBit 1 :: b.testBit 0
      :: c.testBit 7 :: c.testBit 6 :: c.testBit 5 :: c.testBit 4 :: c.testBit 3 :: c.testBit 2
      :: c.testBit 1 :: c.testBit 0 :: bitsOf rest) 0 = a / 4 :=
    RFC4648.value_hi6 a ha
  have s1 : RFC4648.sextet (a.testBit 7 :: a.testBit 6 :: a.testBit 5 :: a.testBit 4
      :: a.testBit 3 :: a.testBit 2 :: a.testBit 1 :: a.testBit 0
      :: b.testBit 7 :: b.testBit 6 :: b.testBit 5 :: b.testBit 4 :: b.testBit 3 :: b.testBit 2
      :: b.testBit 1 :: b.testBit 0
      :: c.testBit 7 :: c.testBit 6 :: c.testBit 5 :: c.testBit 4 :: c.testBit 3 :: c.testBit 2
      :: c.testBit 1 :: c.testBit 0 :: bitsOf rest) 1 = a % 4 * 16 + b / 16 := by
    have := RFC4648.valueOf_append [a.testBit 1, a.testBit 0]
      [b.testBit 7, b.testBit 6, b.testBit 5, b.testBit 4]
    rw [RFC4648.value_lo2 a ha, RFC4648.value_hi4 b hb] at this
    exact this
  have s2 : RFC4648.sextet (a.testBit 7 :: a.testBit 6 :: a.testBit 5 :: a.testBit 4
      :: a.testBit 3 :: a.testBit 2 :: a.testBit 1 :: a.testBit 0
      :: b.testBit 7 :: b.testBit 6 :: b.testBit 5 :: b.testBit 4 :: b.testBit 3 :: b.testBit 2
      :: b.testBit 1 :: b.testBit 0
      :: c.testBit 7 :: c.testBit 6 :: c.testBit 5 :: c.testBit 4 :: c.testBit 3 :: c.testBit 2
      :: c.testBit 1 :: c.testBit 0 :: bitsOf rest) 2 = b % 16 * 4 + c / 64 := by
    have := RFC4648.valueOf_append [b.testBit 3, b.testBit 2, b.testBit 1, b.testBit 0]
      [c.testBit 7, c.testBit 6]
    rw [RFC4648.value_lo4 b hb, RFC4648.value_hi2 c hc] at this
    exact this
  have s3 : RFC4648.sextet (a.testBit 7 :: a.testBit 6 :: a.testBit 5 :: a.testBit 4
      :: a.testBit 3 :: a.testBit 2 :: a.testBit 1 :: a.testBit 0
      :: b.testBit 7 :: b.testBit 6 :: b.testBit 5 :: b.testBit 4 :: b.testBit 3 :: b.testBit 2
      :: b.testBit 1 :: b.testBit 0
      :: c.testBit 7 :: c.testBit 6 :: c.testBit 5 :: c.testBit 4 :: c.testBit 3 :: c.testBit 2
      :: c.testBit 1 :: c.testBit 0 :: bitsOf rest) 3 = c % 64 :=
    RFC4648.value_lo6 c hc
  simp only [List.map_cons, List.map_nil, s0, s1, s2, s3, List.cons_append, List.nil_append,
    Function.comp_def, RFC4648.sextet_shift]
  rw [RFC4648.alphabet_eq _ (by omega), RFC4648.alphabet_eq _ (by omega),
    RFC4648.alphabet_eq _ (by omega), RFC4648.alphabet_eq _ (by omega)]

theorem RFC4648.encode_two (a b : Nat) (ha : a < 256) (hb : b < 256) :
    RFC4648.encode [a, b] =
      [Base64.enc (a / 4), Base64.enc (a % 4 * 16 + b / 16), Base64.enc (b % 16 * 4), '='] := by
  have s0 : RFC4648.sextet (bitsOf [a, b]) 0 = a / 4 := RFC4648.value_hi6 a ha
  have s1 : RFC4648.sextet (bitsOf [a, b]) 1 = a % 4 * 16 + b / 16 := by
    have := RFC4648.valueOf_append [a.testBit 1, a.testBit 0]
      [b.testBit 7, b.testBit 6, b.testBit 5, b.testBit 4]
    rw [RFC4648.value_lo2 a ha, RFC4648.value_hi4 b hb] at this
    exact this
  have s2 : RFC4648.sextet (bitsOf [a, b]) 2 = b % 16 * 4 := by
    have := RFC4648.valueOf_append [b.testBit 3, b.testBit 2, b.testBit 1, b.testBit 0]
      [false, false]
    rw [RFC4648.value_lo4 b hb] at this
    exact this
  have h3 : List.range 3 = [0, 1, 2] := by decide
  have e1 : (8 * [a, b].length + 5) / 6 = 3 := by simp
  unfold RFC4648.encode
  rw [e1, h3]
  simp only [List.map_cons, List.map_nil, s0, s1, s2]
  rw [RFC4648.alphabet_eq _ (by omega), RFC4648.alphabet_eq _ (by omega),
    RFC4648.alphabet_eq _ (by omega)]
  rfl

theorem RFC4648.encode_one (a : Nat) (ha : a < 256) :
    RFC4648.encode [a] = [Base64.enc (a / 4), Base64.enc (a % 4 * 16), '=', '='] := by
  have s0 : RFC4648.sextet (bitsOf [a]) 0 = a / 4 := RFC4648.value_hi6 a ha
  have s1 : RFC4648.sextet (bitsOf [a]) 1 = a % 4 * 16 := by
    have := RFC4648.valueOf_append [a.testBit 1, a.testBit 0] [false, false, false, false]
    rw [RFC4648.value_lo2 a ha] at this
    exact this
  have h2 : List.range 2 = [0, 1] := by decide
  have e1 : (8 * [a].length + 5) / 6 = 2 := by simp
  unfold RFC4648.encode
  rw [e1, h2]
  simp only [List.map_cons, List.map_nil, s0, s1]
  rw [RFC4648.alphabet_eq _ (by omega), RFC4648.alphabet_eq _ (by omega)]
  rfl

/-- On bytes, the modelled `encoding/base64` computes the padded base 64
encoding of RFC 4648 with the URL-safe alphabet. -/
theorem Base64.encode_eq_RFC4648 : ∀ (src : List Nat), (∀ b ∈ src, b < 256) →
    Base64.encode src = RFC4648.encode src
  | [], _ => rfl
  | [a], h => by
    rw [RFC4648.encode_one a (h a (by simp))]
    rfl
  | [a, b], h => by
    rw [RFC4648.encode_two a b (h a (by simp)) (h b (by simp))]
    rfl
  | a :: b :: c :: rest, h => by
    rw [RFC4648.encode_three a b c rest (h a (by simp)) (h b (by simp)) (h c (by simp)),
      Base64.encode, Base64.encode_eq_RFC4648 rest (fun x hx => h x (by simp [hx]))]

end Standards

/-! ### The network matcher -/

section NetworkMatcher
open Net

theorem byteBits_length (b : Nat) : (byteBits b).length = 8 := by
  simp [byteBits]

theorem bitsOf_cons (b : Nat) (bs : List Nat) : bitsOf (b :: bs) = byteBits b ++ bitsOf bs := by
  simp [bitsOf]

theorem bitsOf_length (bs : List Nat) : (bitsOf bs).length = 8 * bs.length := by
  induction bs with
  | nil => rfl
  | cons b bs ih => rw [bitsOf_cons, List.length_append, byteBits_length, ih, List.length_cons]; omega

theorem take_byteBits (k : Nat) (hk : k ≤ 8) (n x : Nat) :
    (byteBits n).take k = (byteBits x).take k ↔ ∀ i, i < k → n.testBit (7 - i) = x.testBit (7 - i) := by
  unfold byteBits
  rw [← List.map_take, ← List.map_take, List.take_range, Nat.min_eq_left hk, List.map_inj_left]
  simp [List.mem_range]

theorem testBit_maskByte (k : Nat) (hk : k ≤ 8) (j : Nat) :
    Nat.testBit (0xff - 0xff >>> k) j = decide (8 - k ≤ j ∧ j < 8) := by
  by_cases hj : j < 8
  · interval_cases k <;> interval_cases j <;> decide
  · have h1 : 0xff - 0xff >>> k < 2 ^ j := by
      have : (2:Nat) ^ 8 ≤ 2 ^ j := Nat.pow_le_pow_right (by decide) (by omega)
      have : 0xff - 0xff >>> k ≤ 0xff := Nat.sub_le _ _
      omega
    rw [Nat.testBit_lt_two_pow h1]
    simp [hj]

theorem and_maskByte_iff (k : Nat) (hk : k ≤ 8) (n x : Nat) :
    (n &&& (0xff - 0xff >>> k) = x &&& (0xff - 0xff >>> k)) ↔
      (byteBits n).take k = (byteBits x).take k := by
  rw [take_byteBits k hk]
  constructor
  · intro h i hi
    have := congrArg (fun v => Nat.testBit v (7 - i)) h
    have hd : decide (8 - k ≤ 7 - i ∧ 7 - i < 8) = true := by
      apply decide_eq_true; omega
    simp only [Nat.testBit_and, testBit_maskByte k hk, hd, Bool.and_true] at this
    exact this
  · intro h
    apply Nat.eq_of_testBit_eq
    intro j
    simp only [Nat.testBit_and, testBit_maskByte k hk]
    by_cases hj : 8 - k ≤ j ∧ j < 8
    · have := h (7 - j) (by omega)
      have e : 7 - (7 - j) = j := by omega
      rw [e] at this
      rw [this]
    · rw [decide_eq_false hj, Bool.and_false, Bool.and_false]

theorem maskBytes_succ (l p : Nat) :
    maskBytes (l + 1) p = (0xff - 0xff >>> min p 8) :: maskBytes l (p - 8) := by
  rw [maskBytes]
  by_cases h : p ≥ 8
  · simp [h, Nat.min_eq_right h]
  · have h1 : min p 8 = p := Nat.min_eq_left (by omega)
    have h2 : p - 8 = 0 := by omega
    simp [h, h1, h2]

theorem containsLoop_maskBytes : ∀ (nn a : List Nat) (p : Nat), nn.length = a.length →
    containsLoop nn (maskBytes nn.length p) a
      = decide ((bitsOf a).take p = (bitsOf nn).take p)
  | [], [], p, _ => by simp [containsLoop, bitsOf]
  | [], _ :: _, _, h => by simp at h
  | _ :: _, [], _, h => by simp at h
  | n :: nn, x :: a, p, h => by
    have hl : nn.length = a.length := by simpa using h
    have ih := containsLoop_maskBytes nn a (p - 8) hl
    rw [List.length_cons, maskBytes_succ, containsLoop, ih, bitsOf_cons, bitsOf_cons,
      List.take_append_eq_append_take, List.take_append_eq_append_take, byteBits_length,
      byteBits_length]
    have hk : min p 8 ≤ 8 := Nat.min_le_right _ _
    have hm := and_maskByte_iff (min p 8) hk n x
    have t1 : ∀ b, (byteBits b).take p = (byteBits b).take (min p 8) := by
      intro b
      by_cases hp : p ≤ 8
      · rw [Nat.min_eq_left hp]
      · rw [Nat.min_eq_right (by omega), List.take_of_length_le (by simp [byteBits_length]; omega),
          List.take_of_length_le (by simp [byteBits_length])]
    rw [t1 n, t1 x]
    by_cases hb : n &&& (0xff - 0xff >>> min p 8) = x &&& (0xff - 0xff >>> min p 8)
    · have hb2 := hm.mp hb
      simp only [hb, ne_eq, not_true_eq_false, if_false, hb2]
      by_cases ht : List.take (p - 8) (bitsOf a) = List.take (p - 8) (bitsOf nn)
      · simp [ht]
      · simp [ht]
    · have hb2 : ¬ (byteBits n).take (min p 8) = (byteBits x).take (min p 8) := fun e => hb (hm.mpr e)
      simp only [hb, ne_eq, not_false_eq_true, if_true]
      symm
      apply decide_eq_false
      intro e
      have := List.append_inj_left e (by simp [byteBits_length])
      exact hb2 this.symm

theorem byteBits_maskByte (k : Nat) (hk : k ≤ 8) :
    byteBits (0xff - 0xff >>> k) = List.replicate k true ++ List.replicate (8 - k) false := by
  interval_cases k <;> decide

theorem bitsOf_maskBytes : ∀ (l p : Nat),
    bitsOf (maskBytes l p)
      = List.replicate (min p (8 * l)) true ++ List.replicate (8 * l - min p (8 * l)) false
  | 0, p => by simp [maskBytes, bitsOf]
  | l + 1, p => by
    rw [maskBytes_succ, bitsOf_cons, byteBits_maskByte _ (Nat.min_le_right _ _),
      bitsOf_maskBytes l (p - 8)]
    by_cases h : p ≥ 8
    · have e1 : min p 8 = 8 := Nat.min_eq_right h
      have e2 : min p (8 * (l + 1)) = 8 + min (p - 8) (8 * l) := by omega
      have e3 : 8 * (l + 1) - (8 + min (p - 8) (8 * l)) = 8 * l - min (p - 8) (8 * l) := by omega
      rw [e1, e2, e3, List.replicate_add]
      simp only [Nat.sub_self, List.replicate_zero, List.append_nil, List.append_assoc]
    · have e1 : min p 8 = p := Nat.min_eq_left (by omega)
      have e2 : min p (8 * (l + 1)) = p := by omega
      have e3 : min (p - 8) (8 * l) = 0 := by omega
      have e4 : 8 * (l + 1) - p = (8 - p) + 8 * l := by omega
      rw [e1, e2, e3, e4, List.replicate_add]
      simp only [Nat.sub_zero, List.replicate_zero, List.nil_append, List.append_assoc]

theorem takeWhile_ones (a b : Nat) :
    (List.replicate a true ++ List.replicate b false).takeWhile id = List.replicate a true := by
  induction a with
  | zero => cases b <;> simp [List.replicate_succ]
  | succ a ih => simp [List.replicate_succ, ih]

theorem prefixLength_maskBytes (l p : Nat) : prefixLength (maskBytes l p) = min p (8 * l) := by
  unfold prefixLength
  rw [bitsOf_maskBytes, takeWhile_ones, List.length_replicate]

theorem take_min_length {α : Type} (p : Nat) (xs : List α) :
    xs.take (min p xs.length) = xs.take p := by
  by_cases h : p ≤ xs.length
  · rw [Nat.min_eq_left h]
  · rw [Nat.min_eq_right (by omega), List.take_length, List.take_of_length_le (by omega)]

/-- With a CIDR-shaped mask, `Contains` is: same length, and the bits agree
within the prefix length. -/
theorem Contains_of_mask (n : IPNet) (ip : IP) (p : Nat)
    (hm : (networkNumberAndMask n).2 = maskBytes (networkNumberAndMask n).1.length p) :
    Contains n ip = (sameFamily n ip && prefixAgrees n ip) := by
  unfold Contains sameFamily prefixAgrees addressOf
  generalize hnm : networkNumberAndMask n = nm at hm
  obtain ⟨nn, m⟩ := nm
  generalize (if To4 ip ≠ [] then To4 ip else ip) = a
  simp only at hm ⊢
  by_cases hl : a.length = nn.length
  · rw [hm, prefixLength_maskBytes, containsLoop_maskBytes nn _ p hl.symm]
    have h1 := take_min_length p (bitsOf nn)
    have h2 := take_min_length p (bitsOf a)
    rw [bitsOf_length] at h1 h2
    rw [hl] at h2
    simp only [hl, ne_eq, not_true_eq_false, if_false, decide_True, Bool.true_and, h1, h2]
  · simp only [hl, ne_eq, not_false_eq_true, if_true, decide_False, Bool.false_and]

theorem maskBytes_length : ∀ (l p : Nat), (maskBytes l p).length = l
  | 0, _ => rfl
  | l + 1, p => by rw [maskBytes_succ, List.length_cons, maskBytes_length l]

theorem drop_maskBytes : ∀ (j l p : Nat),
    (maskBytes (j + l) p).drop j = maskBytes l (p - 8 * j)
  | 0, l, p => by simp
  | j + 1, l, p => by
    have e : j + 1 + l = (j + l) + 1 := by omega
    rw [e, maskBytes_succ, List.drop_succ_cons, drop_maskBytes j l (p - 8)]
    congr 1
    omega

theorem parseIPv4_shape (s : List Nat) :
    parseIPv4 s = [] ∨ ∃ a b c d, parseIPv4 s = IPv4 a b c d := by
  unfold parseIPv4
  split
  · exact Or.inr ⟨_, _, _, _, rfl⟩
  · exact Or.inl rfl

theorem parseIPv4_length (s : List Nat) (h : parseIPv4 s ≠ []) : (parseIPv4 s).length = 16 := by
  rcases parseIPv4_shape s with h0 | ⟨a, b, c, d, e⟩
  · exact absurd h0 h
  · rw [e]; rfl

/-- Eight iterations are enough: more fuel does not change the result. -/
theorem parseIPv6Loop_fuel : ∀ (fuel : Nat) (ip : List Nat) (ellipsis : Int) (s : List Nat),
    16 ≤ ip.length + 2 * fuel →
    parseIPv6Loop (fuel + 1) ip ellipsis s = parseIPv6Loop fuel ip ellipsis s
  | 0, ip, ellipsis, s, h => by
    have h16 : ¬ ip.length < IPv6len := by simp only [IPv6len]; omega
    simp only [parseIPv6Loop, h16, not_false_eq_true, if_true]
  | fuel + 1, ip, ellipsis, s, h => by
    rw [parseIPv6Loop]
    conv_rhs => rw [parseIPv6Loop]
    have ih := fun ell' s' => parseIPv6Loop_fuel fuel (ip ++ [(xtoi s).1 / 256 % 256, (xtoi s).1 % 256])
      ell' s' (by simp only [List.length_append, List.length_cons, List.length_nil]; omega)
    split
    · rfl
    · split
      rename_i n c ok hx
      have hn : (xtoi s).1 = n := by rw [hx]
      rw [hn] at ih
      simp only [ih]

theorem parseIPv6Loop_fuel_ge (k : Nat) (ellipsis : Int) (s : List Nat) :
    parseIPv6Loop (8 + k) [] ellipsis s = parseIPv6Loop 8 [] ellipsis s := by
  induction k with
  | zero => rfl
  | succ k ih =>
    rw [← ih]
    exact parseIPv6Loop_fuel (8 + k) [] ellipsis s (by simp only [List.length_nil]; omega)

theorem parseIPv6Loop_length : ∀ (fuel : Nat) (ip : List Nat) (ellipsis : Int) (s : List Nat)
    (r : List Nat × Int × List Nat),
    ip.length % 2 = 0 → ip.length ≤ 16 → parseIPv6Loop fuel ip ellipsis s = some r →
    r.1.length ≤ 16
  | 0, ip, ellipsis, s, r, _, hle, h => by
    simp only [parseIPv6Loop, Option.some.injEq] at h
    rw [← h]; exact hle
  | fuel + 1, ip, ellipsis, s, r, hev, hle, h => by
    rw [parseIPv6Loop] at h
    split at h
    · simp only [Option.some.injEq] at h
      rw [← h]; exact hle
    · rename_i hlt
      simp only [IPv6len, not_not] at hlt
      split at h
      rename_i n c ok hx
      split at h
      · exact absurd h (by simp)
      · split at h
        · split at h
          · exact absurd h (by simp)
          · split at h
            · exact absurd h (by simp)
            · rename_i hroom
              simp only [IPv6len, IPv4len] at hroom
              split at h
              · exact absurd h (by simp)
              · rename_i ip4 hne
                simp only [Option.some.injEq] at h
                rw [← h]
                have h16 := parseIPv4_length s (by simpa using hne)
                simp only [List.length_append, List.length_drop, h16]
                omega
        · have hlen : (ip ++ [n / 256 % 256, n % 256]).length = ip.length + 2 := by simp
          have hev' : (ip ++ [n / 256 % 256, n % 256]).length % 2 = 0 := by omega
          have hle' : (ip ++ [n / 256 % 256, n % 256]).length ≤ 16 := by omega
          simp only at h
          split at h
          · simp only [Option.some.injEq] at h
            rw [← h]; exact hle'
          · split at h
            · exact absurd h (by simp)
            · split at h
              · split at h
                · exact absurd h (by simp)
                · split at h
                  · simp only [Option.some.injEq] at h
                    rw [← h]; exact hle'
                  · exact parseIPv6Loop_length fuel _ _ _ r hev' hle' h
              · exact parseIPv6Loop_length fuel _ _ _ r hev' hle' h

theorem parseIPv6Body_length (ellipsis : Int) (s : List Nat) (h : parseIPv6Body ellipsis s ≠ []) :
    (parseIPv6Body ellipsis s).length = 16 := by
  unfold parseIPv6Body at h ⊢
  split at h
  · exact absurd rfl h
  · rename_i ip ell rest hloop
    have hle := parseIPv6Loop_length 8 [] ellipsis s _ (by simp) (by simp) hloop
    simp only at hle
    split
    · rename_i h1; simp [h1] at h
    · rename_i h1
      simp only [h1, if_false] at h
      split
      · rename_i h2
        simp only [h2, if_true] at h
        split
        · rename_i h3; simp [h3] at h
        · simp only [IPv6len] at h2 ⊢
          simp only [List.length_append, List.length_take, List.length_replicate,
            List.length_drop]
          omega
      · rename_i h2
        simp only [h2, if_false] at h
        split
        · rename_i h3; simp [h3] at h
        · simp only [IPv6len] at h2
          omega

theorem parseIPv6_shape (s : List Nat) : parseIPv6 s = [] ∨ (parseIPv6 s).length = 16 := by
  unfold parseIPv6
  split
  · rename_i rest
    split
    · right; simp [IPv6len]
    · by_cases h : parseIPv6Body 0 rest = []
      · exact Or.inl h
      · exact Or.inr (parseIPv6Body_length 0 rest h)
  · by_cases h : parseIPv6Body (-1) s = []
    · exact Or.inl h
    · exact Or.inr (parseIPv6Body_length (-1) s h)

theorem parseIPv6_length (s : List Nat) (h : parseIPv6 s ≠ []) : (parseIPv6 s).length = 16 :=
  (parseIPv6_shape s).resolve_left h

theorem CIDRMask_eq (k bits : Nat) (hb : bits = 32 ∨ bits = 128) (hk : k ≤ bits) :
    CIDRMask k bits = maskBytes (bits / 8) k := by
  unfold CIDRMask
  rcases hb with hb | hb <;> subst hb <;> simp [IPv4len, IPv6len] <;> omega

theorem Mask_length16 (ip m : List Nat) (hip : ip.length = 16) (hm : m.length = 16) :
    (Mask ip m).length = 16 := by
  unfold Mask
  simp [hip, hm, IPv4len, IPv6len]

theorem Mask_length4 (a b c d : Nat) (m : List Nat) (hm : m.length = 4) :
    (Mask (IPv4 a b c d) m).length = 4 := by
  unfold Mask
  simp [hm, IPv4len, IPv6len, IPv4, v4InV6Prefix]

theorem networkNumberAndMask_len4 (ip m : List Nat) (hip : ip.length = 4) (hm : m.length = 4) :
    networkNumberAndMask ⟨ip, m⟩ = (ip, m) := by
  have hne : ip ≠ [] := by intro e; rw [e] at hip; simp at hip
  have h4 : To4 ip = ip := by simp [To4, hip, IPv4len]
  unfold networkNumberAndMask
  simp [h4, hne, hip, hm, IPv4len, IPv6len]

theorem networkNumberAndMask_len16 (ip m : List Nat) (hip : ip.length = 16)
    (hm : m.length = 16) :
    networkNumberAndMask ⟨ip, m⟩ = (ip, m) ∨
    networkNumberAndMask ⟨ip, m⟩ = (ip.drop 12, m.drop 12) := by
  by_cases h4 : To4 ip = []
  · left
    unfold networkNumberAndMask
    simp [h4, hip, hm, IPv4len, IPv6len]
  · right
    have hd : To4 ip = ip.drop 12 := by
      unfold To4 at h4 ⊢
      have h16 : ¬ ip.length = IPv4len := by rw [hip]; decide
      rw [if_neg h16] at h4 ⊢
      split
      · rfl
      · rename_i hc
        rw [if_neg hc] at h4
        exact absurd rfl h4
    have hl : (ip.drop 12).length = 4 := by simp [hip]
    unfold networkNumberAndMask
    simp [hd, hl, hm, hip, IPv4len, IPv6len]

/-- What `ParseCIDR` returns is a network whose number has four or sixteen
bytes and whose mask is a CIDR mask of that length. -/
theorem ParseCIDR_shape (s : String) (n : IPNet) (h : ParseCIDR s = some n) :
    ∃ p, (networkNumberAndMask n).2 = maskBytes (networkNumberAndMask n).1.length p ∧
      (networkNumberAndMask n).1.length ≠ 0 := by
  unfold ParseCIDR at h
  split at h
  · exact absurd h (by simp)
  · rename_i addr mask _
    generalize dtoi mask = r at h
    obtain ⟨k, i, ok⟩ := r
    by_cases h4 : parseIPv4 addr = []
    · simp only [h4, if_true] at h
      split at h
      · exact absurd h (by simp)
      · rename_i hc
        simp only [not_or, Option.some.injEq] at hc h
        obtain ⟨hip, _, _, hk⟩ := hc
        rw [← h]
        have hk' : k ≤ 128 := by simp only [IPv6len] at hk; omega
        have hlen := parseIPv6_length addr hip
        have hmask : CIDRMask k (8 * IPv6len) = maskBytes 16 k :=
          CIDRMask_eq k 128 (Or.inr rfl) hk'
        rw [hmask]
        have hml := maskBytes_length 16 k
        have hM := Mask_length16 _ _ hlen hml
        rcases networkNumberAndMask_len16 _ _ hM hml with e | e
        · refine ⟨k, ?_, ?_⟩
          · rw [e]; simp only; rw [hM]
          · rw [e]; simp only; rw [hM]; decide
        · refine ⟨k - 96, ?_, ?_⟩
          · rw [e]; simp only
            rw [List.length_drop, hM]
            exact drop_maskBytes 12 4 k
          · rw [e]; simp only; rw [List.length_drop, hM]; decide
    · simp only [h4, if_false] at h
      split at h
      · exact absurd h (by simp)
      · rename_i hc
        simp only [not_or, Option.some.injEq] at hc h
        obtain ⟨hip, _, _, hk⟩ := hc
        rw [← h]
        have hk' : k ≤ 32 := by simp only [IPv4len] at hk; omega
        obtain ⟨a, b, c, d, e4⟩ := (parseIPv4_shape addr).resolve_left h4
        have hmask : CIDRMask k (8 * IPv4len) = maskBytes 4 k :=
          CIDRMask_eq k 32 (Or.inl rfl) hk'
        rw [hmask, e4]
        have hml := maskBytes_length 4 k
        have hM := Mask_length4 a b c d _ hml
        have e := networkNumberAndMask_len4 _ _ hM hml
        refine ⟨k, ?_, ?_⟩
        · rw [e]; simp only; rw [hM]
        · rw [e]; simp only; rw [hM]; decide

theorem containsIP_eq_containsAmended (tokenDetail : TokenDetail) (clientIP : String) :
    tokenDetail.containsIP clientIP
      = containsAmended tokenDetail.WhitelistedNetwork clientIP := by
  unfold TokenDetail.containsIP containsAmended
  cases hp : ParseCIDR tokenDetail.WhitelistedNetwork with
  | none => rfl
  | some n =>
    obtain ⟨p, hm, hne⟩ := ParseCIDR_shape _ n hp
    simp only
    rw [Contains_of_mask n _ p hm]
    by_cases hip : ParseIP clientIP = []
    · have hf : sameFamily n [] = false := by
        unfold sameFamily addressOf
        have : To4 [] = [] := by decide
        simp only [this, ne_eq, not_true_eq_false, if_false, List.length_nil]
        exact decide_eq_false (fun e => hne e.symm)
      rw [hip, hf]
      simp
    · simp [hip]

end NetworkMatcher

theorem printHashes_eq (project : Project) (pre : List TokenDetail) :
    ∀ rest : List TokenDetail, project.Tokens = pre ++ rest →
      printHashes project pre.length rest =
        rest.map (fun t => t.WhitelistedNetwork ++ " " ++ ": " ++ " " ++
          generateHash (project.Name ++ project.Secret ++ t.Token) ++ "\n") := by
  intro rest
  induction rest generalizing pre with
  | nil => intro _; rfl
  | cons t rest ih =>
    intro h
    have h2 : project.Tokens = (pre ++ [t]) ++ rest := by simp [h]
    have := ih (pre ++ [t]) h2
    simp only [List.length_append, List.length_singleton] at this
    have hget : ∀ d, (pre ++ t :: rest).getD pre.length d = t := by
      intro d
      rw [List.getD_eq_getElem?_getD, List.getElem?_append_right (le_refl _)]
      simp
    simp only [printHashes, List.map_cons, this, Project.GetHash, h, hget]

theorem validateTokenLoop_of_find (project : Project) (clientIP tokenHash : String)
    (token : TokenDetail) :
    ∀ tokens : List TokenDetail,
      tokens.find? (fun t => t.containsIP clientIP) = some token →
      validateTokenLoop project clientIP tokenHash tokens =
        (tokenHash == generateHash (project.Name ++ project.Secret ++ token.Token)) := by
  intro tokens
  induction tokens with
  | nil => intro h; simp at h
  | cons t rest ih =>
    intro h
    by_cases hc : t.containsIP clientIP = true
    · simp only [List.find?, hc, Option.some.injEq] at h
      subst h
      simp only [validateTokenLoop, hc, if_true]
    · simp only [List.find?, hc] at h
      simp only [validateTokenLoop, hc]
      exact ih h

/-- C1: `Project.ValidateToken` returns exactly the comparison of the
presented hash with `generateHash (Name ++ Secret ++ Token)` of the first
token, in sequence order, whose whitelisted network contains the client IP
(tokens after it are not consulted), and `false` when no token's network
contains the client IP. -/
theorem validateToken_first_match (project : Project) (clientIP tokenHash : String) :
    project.ValidateToken clientIP tokenHash =
      match project.Tokens.find? (fun t => t.containsIP clientIP) with
      | some token => tokenHash == generateHash (project.Name ++ project.Secret ++ token.Token)
      | none => false := by
  unfold Project.ValidateToken
  induction project.Tokens with
  | nil => rfl
  | cons t rest ih =>
    by_cases h : t.containsIP clientIP = true
    · simp [validateTokenLoop, List.find?, h]
    · simp only [validateTokenLoop, List.find?, h, ih]
      simp

/-- C8: `regenerate` on an empty UUID returns no project and the
`InvalidUUID` error and performs no lookup (the state, recorded calls
included, is untouched); on a non-empty UUID it performs exactly one lookup
(one `FindProjectWithUUID` call is recorded) and returns the found project with
no error, or no project with the error of the lookup unchanged. -/
theorem regenerate_lookup (find : String → Except GoError Project) (ErrorInvalidUUID : String)
    (uuid : String) (w : World) :
    (uuid = "" →
      regenerate find ErrorInvalidUUID uuid w = ((none, some (.errorsNew ErrorInvalidUUID)), w)) ∧
    (uuid ≠ "" →
      (regenerate find ErrorInvalidUUID uuid w).2.calls = w.calls ++ [.FindProjectWithUUID uuid] ∧
      (regenerate find ErrorInvalidUUID uuid w).2.fs = w.fs ∧
      (∀ project, find uuid = .ok project →
        (regenerate find ErrorInvalidUUID uuid w).1 = (some project, none)) ∧
      (∀ err, find uuid = .error err →
        (regenerate find ErrorInvalidUUID uuid w).1 = (none, some err))) := by
  constructor
  · intro h
    simp [regenerate, h]
  · intro h
    cases hf : find uuid <;> simp [regenerate, h, hf, World.call, World.print]

theorem regenerate_lookup_witness :
    (("" : String) = "" →
      regenerate (FindProjectWithUUID exampleNotFound exampleStore) "invalid uuid" "" emptyWorld
        = ((none, some (.errorsNew "invalid uuid")), emptyWorld)) ∧
    (("u-1" : String) ≠ "" →
      (regenerate (FindProjectWithUUID exampleNotFound exampleStore) "invalid uuid" "u-1"
          emptyWorld).2.calls = emptyWorld.calls ++ [.FindProjectWithUUID "u-1"] ∧
      (regenerate (FindProjectWithUUID exampleNotFound exampleStore) "invalid uuid" "u-1"
          emptyWorld).1 = (some exampleProject, none)) :=
  ⟨(regenerate_lookup (FindProjectWithUUID exampleNotFound exampleStore) "invalid uuid" ""
      emptyWorld).1,
   fun h =>
    have r := (regenerate_lookup (FindProjectWithUUID exampleNotFound exampleStore)
      "invalid uuid" "u-1" emptyWorld).2 h
    ⟨r.1, r.2.2.1 exampleProject rfl⟩⟩

/-- C3, counterexample: for the stored project `u-1` (two tokens) the
operation yields the stored project itself, so no token value is replaced. -/
theorem regenerate_replaces_nothing_example :
    ¬ TokensAllReplaced exampleProject
      (regenerate (FindProjectWithUUID exampleNotFound exampleStore) "invalid uuid" "u-1"
        emptyWorld).1 := by
  intro h
  exact h exampleProject rfl 0 (by decide) rfl

/-- C3, amended: for every stored project reached by a non-empty UUID,
`regenerate` returns the stored project as it is (same UUID, name, networks
and token values, hence the same derived hashes), the file system is not
written, and the command prints, for each token in order, its network and
the hash `generateHash (Name ++ Secret ++ Token)` of the stored token value. -/
theorem regenerate_returns_stored (find : String → Except GoError Project)
    (ErrorInvalidUUID uuid : String) (w : World) (project : Project)
    (hu : uuid ≠ "") (hf : find uuid = .ok project) :
    (regenerate find ErrorInvalidUUID uuid w).1 = (some project, none) ∧
    (regenerate find ErrorInvalidUUID uuid w).2.fs = w.fs ∧
    (regenerateCmdRun find ErrorInvalidUUID uuid w).1 = .returned ∧
    (regenerateCmdRun find ErrorInvalidUUID uuid w).2.fs = w.fs ∧
    (regenerateCmdRun find ErrorInvalidUUID uuid w).2.stdout =
      w.stdout ++ project.Tokens.map (fun t => t.WhitelistedNetwork ++ " " ++ ": " ++ " " ++
        generateHash (project.Name ++ project.Secret ++ t.Token) ++ "\n") := by
  have hp := printHashes_eq project [] project.Tokens rfl
  simp only [List.length_nil] at hp
  simp [regenerateCmdRun, regenerate, hu, hf, World.call, hp]

theorem regenerate_returns_stored_witness :
    (regenerate (FindProjectWithUUID exampleNotFound exampleStore) "invalid uuid" "u-1"
      emptyWorld).1 = (some exampleProject, none) ∧
    (regenerateCmdRun (FindProjectWithUUID exampleNotFound exampleStore) "invalid uuid" "u-1"
      emptyWorld).1 = .returned :=
  have r := regenerate_returns_stored (FindProjectWithUUID exampleNotFound exampleStore)
    "invalid uuid" "u-1" emptyWorld exampleProject (by decide) rfl
  ⟨r.1, r.2.2.1⟩

/-- C4, evaluation at a failing input: for the flags `--name svc-a --ip-cidr
10.0.0.0/8 --ip-cidr 192.168.0.0/16` the built project passes validation
(`ValidateProjectConfiguration` returns `nil`), and `addCmd.Run` ends in a
nil-dereference panic at `err.Error()`: `manage.AddProject` is not called and
nothing is written. -/
theorem addCmdRun_panics_on_valid_project (ErrorInvalidConfiguration : String)
    (addProject : String → Project → FileSystem → Option GoError × FileSystem)
    (fresh : Fresh) (cfgFile : String) (w : World) :
    Project.ValidateProjectConfiguration ErrorInvalidConfiguration
        (buildProject fresh exampleFlags) = none ∧
    addCmdRun ErrorInvalidConfiguration
        (Project.ValidateProjectConfiguration ErrorInvalidConfiguration)
        addProject fresh cfgFile exampleFlags w
      = (.panic "invalid memory address or nil pointer dereference", w) := by
  have hv : Project.ValidateProjectConfiguration ErrorInvalidConfiguration
      (buildProject fresh exampleFlags) = none := by
    have h1 : (Net.ParseCIDR "10.0.0.0/8").isSome = true := by decide
    have h2 : (Net.ParseCIDR "192.168.0.0/16").isSome = true := by decide
    simp [Project.ValidateProjectConfiguration, buildProject, NewProject, exampleFlags,
      newTokens, h1, h2]
  exact ⟨hv, by simp [addCmdRun, hv]⟩

/-- C5: whenever the built project fails validation
(`ValidateProjectConfiguration` returns an error), `addCmd.Run` prints the
error and exits with status 1 before `manage.AddProject`: no call is recorded
and the file system is unchanged. -/
theorem addCmdRun_aborts_on_invalid_project (ErrorInvalidConfiguration : String)
    (addProject : String → Project → FileSystem → Option GoError × FileSystem)
    (fresh : Fresh) (cfgFile : String) (flags : AddFlags) (w : World)
    (hv : Project.ValidateProjectConfiguration ErrorInvalidConfiguration
      (buildProject fresh flags) ≠ none) :
    (addCmdRun ErrorInvalidConfiguration
        (Project.ValidateProjectConfiguration ErrorInvalidConfiguration)
        addProject fresh cfgFile flags w).1 = .exit 1 ∧
    (addCmdRun ErrorInvalidConfiguration
        (Project.ValidateProjectConfiguration ErrorInvalidConfiguration)
        addProject fresh cfgFile flags w).2.calls = w.calls ∧
    (addCmdRun ErrorInvalidConfiguration
        (Project.ValidateProjectConfiguration ErrorInvalidConfiguration)
        addProject fresh cfgFile flags w).2.fs = w.fs := by
  have he : Project.ValidateProjectConfiguration ErrorInvalidConfiguration
      (buildProject fresh flags) = some (.errorsNew ErrorInvalidConfiguration) := by
    unfold Project.ValidateProjectConfiguration at hv ⊢
    split
    · rename_i h
      simp [h] at hv
    · rfl
  simp [addCmdRun, he, GoError.Error, World.print]

theorem addCmdRun_aborts_on_invalid_project_witness :
    (addCmdRun "invalid configuration"
        (Project.ValidateProjectConfiguration "invalid configuration")
        (fun _ _ fs => (none, fs)) exampleFresh "config.yaml"
        { exampleFlags with name := "" } emptyWorld).1 = .exit 1 ∧
    (addCmdRun "invalid configuration"
        (Project.ValidateProjectConfiguration "invalid configuration")
        (fun _ _ fs => (none, fs)) exampleFresh "config.yaml"
        { exampleFlags with name := "" } emptyWorld).2.calls = emptyWorld.calls ∧
    (addCmdRun "invalid configuration"
        (Project.ValidateProjectConfiguration "invalid configuration")
        (fun _ _ fs => (none, fs)) exampleFresh "config.yaml"
        { exampleFlags with name := "" } emptyWorld).2.fs = emptyWorld.fs :=
  addCmdRun_aborts_on_invalid_project "invalid configuration" (fun _ _ fs => (none, fs))
    exampleFresh "config.yaml" { exampleFlags with name := "" } emptyWorld
    (by simp [Project.ValidateProjectConfiguration, buildProject, exampleFlags])

/-- C6: when the target file exists and `overwrite` is false,
`UpdateConfiguration` performs no write (the file system, hence the bytes of
the file, is as before) and returns an error, which is the `FileExists` error
once the configuration has been serialized (serialization comes first in the
code). -/
theorem updateConfiguration_keeps_existing_file
    (marshal : Configuration → Except String (List Nat)) (ErrorFileExists : String)
    (fs : FileSystem) (cfgFile : String) (configuration : Configuration) (old : List Nat)
    (hex : fs.content cfgFile = some old) :
    (UpdateConfiguration marshal ErrorFileExists fs cfgFile configuration false).2.content cfgFile
      = some old ∧
    (UpdateConfiguration marshal ErrorFileExists fs cfgFile configuration false).2.content
      = fs.content ∧
    (UpdateConfiguration marshal ErrorFileExists fs cfgFile configuration false).1 ≠ none ∧
    (∀ configBytes, marshal configuration = .ok configBytes →
      UpdateConfiguration marshal ErrorFileExists fs cfgFile configuration false
        = (some (.errorsNew ErrorFileExists), fs)) := by
  have hs : osIsNotExist (osStat fs cfgFile) = false := by
    unfold osStat
    cases hf : fs.statFault cfgFile <;> simp [hex, osIsNotExist]
  cases hm : marshal configuration with
  | error text => simp [UpdateConfiguration, hm, hex]
  | ok bytes => simp [UpdateConfiguration, hm, hs, hex]

theorem updateConfiguration_keeps_existing_file_witness :
    (UpdateConfiguration exampleMarshal "file exists" (fsWithConfig [1, 2, 3]) "config.yaml"
        exampleStore false).2.content "config.yaml" = some [1, 2, 3] ∧
    UpdateConfiguration exampleMarshal "file exists" (fsWithConfig [1, 2, 3]) "config.yaml"
        exampleStore false
      = (some (.errorsNew "file exists"), fsWithConfig [1, 2, 3]) :=
  have r := updateConfiguration_keeps_existing_file exampleMarshal "file exists"
    (fsWithConfig [1, 2, 3]) "config.yaml" exampleStore [1, 2, 3]
    (by simp [fsWithConfig, FileSystem.store])
  ⟨r.1, r.2.2.2 (bytesOf "projects: []\n") rfl⟩

/-- C7, evaluation at a failing input: `/etc/hostname` is a regular file, so
no file `/etc/hostname/config.yaml` exists and `os.Stat` fails there with
`ENOTDIR`, which `os.IsNotExist` does not recognise; with `overwrite = false`
`UpdateConfiguration` returns the `FileExists` error. -/
theorem updateConfiguration_stat_failure_reported_as_file_exists :
    fsNotDir.content "/etc/hostname/config.yaml" = none ∧
    osStat fsNotDir "/etc/hostname/config.yaml"
      = some (.pathError "stat" "/etc/hostname/config.yaml" (.other .ENOTDIR)) ∧
    (UpdateConfiguration exampleMarshal "file exists" fsNotDir "/etc/hostname/config.yaml"
      exampleStore false).1 = some (.errorsNew "file exists") := by
  refine ⟨rfl, ?_, ?_⟩
  · simp [osStat, fsNotDir]
  · simp [UpdateConfiguration, exampleMarshal, osStat, fsNotDir, osIsNotExist]

theorem generateHash_eq_iff (a b : String) :
    generateHash a = generateHash b ↔ SHA256.sum (bytesOf a) = SHA256.sum (bytesOf b) := by
  constructor
  · intro h
    unfold generateHash Base64.URLEncodeToString at h
    exact Base64.encode_inj _ _ (SHA256.sum_lt _) (SHA256.sum_lt _) (congrArg String.data h)
  · intro h
    unfold generateHash
    rw [h]

/-- C9: `generateHash` returns the padded URL-safe base64 encoding (RFC 4648)
of the SHA-256 digest (FIPS 180-4, with its constants the root fractions of
the primes) of the input's bytes: 32 digest bytes, hence 44 characters, the
first 43 from the URL-safe alphabet and then one `=` (which is not in the
alphabet); on the test vectors `abc`, the empty message and the 56-byte
message it gives the published digests; the input's bytes are its UTF-8
encoding (checked on one character of each length); it is deterministic, and two inputs
have the same hash exactly when they have the same digest; and the value
`ValidateToken` compares the presented hash with is
`generateHash (Name ++ Secret ++ Token)` for the token it selects. -/
theorem generateHash_sha256_base64url (input : String) :
    generateHash input = String.mk (RFC4648.encode (FIPS180.digest (bytesOf input))) ∧
    (∀ t, t < 64 → FIPS180.IsRootFraction 3 (FIPS180.primes.getD t 0) (FIPS180.K t)) ∧
    (∀ i, i < 8 → FIPS180.IsRootFraction 2 (FIPS180.primes.getD i 0)
      ([FIPS180.H0.a, FIPS180.H0.b, FIPS180.H0.c, FIPS180.H0.d,
        FIPS180.H0.e, FIPS180.H0.f, FIPS180.H0.g, FIPS180.H0.h].getD i 0)) ∧
    generateHash "abc" = "ungWv48Bz-pBQUDeXa4iI7ADYaOWF3qctBD_YfIAFa0=" ∧
    generateHash "" = "47DEQpj8HBSa-_TImW-5JCeuQeRkm5NMpJWZG3hSuFU=" ∧
    generateHash "abcdbcdecdefdefgefghfghighijhijkijkljklmklmnlmnomnopnopq"
      = "JI1qYdIGOLjlwCaTDD5gOaM85Flk_yFn9uzt1BnbBsE=" ∧
    bytesOf (String.mk [Char.ofNat 0x61, Char.ofNat 0xe9, Char.ofNat 0x20ac, Char.ofNat 0x1f600])
      = [0x61, 0xc3, 0xa9, 0xe2, 0x82, 0xac, 0xf0, 0x9f, 0x98, 0x80] ∧
    (FIPS180.digest (bytesOf input)).length = 32 ∧
    (∀ b ∈ FIPS180.digest (bytesOf input), b < 256) ∧
    (generateHash input).length = 44 ∧
    (∃ cs : List Char, (generateHash input).data = cs ++ ['='] ∧ cs.length = 43 ∧
      ∀ c ∈ cs, c ∈ Base64.encodeURL) ∧
    '=' ∉ Base64.encodeURL ∧
    (∀ other : String, other = input → generateHash other = generateHash input) ∧
    (∀ other : String, generateHash other = generateHash input ↔
      FIPS180.digest (bytesOf other) = FIPS180.digest (bytesOf input)) ∧
    (∀ (project : Project) (clientIP tokenHash : String) (token : TokenDetail),
      project.Tokens.find? (fun t => t.containsIP clientIP) = some token →
      project.ValidateToken clientIP tokenHash =
        (tokenHash == generateHash (project.Name ++ project.Secret ++ token.Token))) := by
  have hd := Base64.encode_digest _ (SHA256.sum_length (bytesOf input))
  have hs := SHA256.sum_eq_digest (bytesOf input)
  refine ⟨?_, FIPS180.K_cube_roots, FIPS180.H0_square_roots, ?_, ?_, ?_, by decide, ?_, ?_, ?_,
    ?_, Base64.pad_not_mem, ?_, ?_, ?_⟩
  · unfold generateHash Base64.URLEncodeToString
    rw [Base64.encode_eq_RFC4648 _ (SHA256.sum_lt _), hs]
  · set_option maxRecDepth 100000 in decide
  · set_option maxRecDepth 100000 in decide
  · set_option maxRecDepth 100000 in decide
  · rw [← hs]
    exact SHA256.sum_length _
  · rw [← hs]
    exact SHA256.sum_lt _
  · show (Base64.encode (SHA256.sum (bytesOf input))).length = 44
    rw [hd.1, List.length_append, hd.2.1]
    rfl
  · exact ⟨_, hd.1, hd.2.1, hd.2.2⟩
  · intro other h
    rw [h]
  · intro other
    rw [generateHash_eq_iff, SHA256.sum_eq_digest, SHA256.sum_eq_digest]
  · intro project clientIP tokenHash token h
    exact validateTokenLoop_of_find project clientIP tokenHash token _ h

theorem generateHash_sha256_base64url_witness :
    (generateHash "svc-as3cr3ttok-1").length = 44 ∧
    generateHash "svc-as3cr3ttok-1"
      = String.mk (RFC4648.encode (FIPS180.digest (bytesOf "svc-as3cr3ttok-1"))) ∧
    exampleProject.ValidateToken "10.1.2.3" "ungWv48Bz-pBQUDeXa4iI7ADYaOWF3qctBD_YfIAFa0=" =
      ("ungWv48Bz-pBQUDeXa4iI7ADYaOWF3qctBD_YfIAFa0=" ==
        generateHash (exampleProject.Name ++ exampleProject.Secret ++ "tok-1")) :=
  have r := generateHash_sha256_base64url "svc-as3cr3ttok-1"
  ⟨r.2.2.2.2.2.2.2.2.2.1, r.1,
   r.2.2.2.2.2.2.2.2.2.2.2.2.2.2 exampleProject "10.1.2.3"
     "ungWv48Bz-pBQUDeXa4iI7ADYaOWF3qctBD_YfIAFa0="
     { WhitelistedNetwork := "10.0.0.0/8", Token := "tok-1" } (by decide)⟩

/-- C10, counterexample: the projects (`ab`, `c`) and (`a`, `bc`) differ in
name and in secret and hold the same token `tok` for the network `0.0.0.0/0`,
which contains `10.1.2.3`; the hash accepted for the first is accepted for the
second. -/
theorem hash_reused_across_projects_example :
    projectAB.Name ≠ projectA.Name ∧ projectAB.Secret ≠ projectA.Secret ∧
    projectAB.Tokens = projectA.Tokens ∧
    projectAB.Tokens.find? (fun t => t.containsIP "10.1.2.3")
      = some { WhitelistedNetwork := "0.0.0.0/0", Token := "tok" } ∧
    ¬ HashNotReusable projectAB projectA "10.1.2.3" := by
  refine ⟨by decide, by decide, rfl, by decide, ?_⟩
  intro h
  have h1 : projectAB.ValidateToken "10.1.2.3" (generateHash "abctok") = true := by
    set_option maxRecDepth 100000 in decide
  have h2 : projectA.ValidateToken "10.1.2.3" (generateHash "abctok") = true := by
    set_option maxRecDepth 100000 in decide
  rw [h _ h1] at h2
  exact Bool.noConfusion h2

/-- C10, amended: for two projects whose first token for a network containing
the client IP holds the same token value, the hash accepted for the first,
`generateHash (Name₁ ++ Secret₁ ++ Token)`, is accepted for the second exactly
when the SHA-256 digests of `Name₁ ++ Secret₁ ++ Token` and
`Name₂ ++ Secret₂ ++ Token` coincide; when `Name₁ ++ Secret₁ = Name₂ ++ Secret₂`
the two projects accept the same hashes. -/
theorem validateToken_across_projects (p1 p2 : Project) (clientIP : String)
    (t1 t2 : TokenDetail)
    (h1 : p1.Tokens.find? (fun t => t.containsIP clientIP) = some t1)
    (h2 : p2.Tokens.find? (fun t => t.containsIP clientIP) = some t2)
    (ht : t1.Token = t2.Token) :
    (p2.ValidateToken clientIP (generateHash (p1.Name ++ p1.Secret ++ t1.Token)) = true ↔
      SHA256.sum (bytesOf (p1.Name ++ p1.Secret ++ t1.Token))
        = SHA256.sum (bytesOf (p2.Name ++ p2.Secret ++ t2.Token))) ∧
    (p1.Name ++ p1.Secret = p2.Name ++ p2.Secret →
      ∀ tokenHash, p1.ValidateToken clientIP tokenHash = p2.ValidateToken clientIP tokenHash) := by
  constructor
  · unfold Project.ValidateToken
    rw [validateTokenLoop_of_find p2 clientIP _ t2 _ h2, ← generateHash_eq_iff, ht]
    simp
  · intro hn tokenHash
    unfold Project.ValidateToken
    rw [validateTokenLoop_of_find p1 clientIP _ t1 _ h1,
      validateTokenLoop_of_find p2 clientIP _ t2 _ h2, hn, ht]

theorem validateToken_across_projects_witness :
    (projectCD.ValidateToken "10.1.2.3"
        (generateHash (projectAB.Name ++ projectAB.Secret ++ "tok")) = true ↔
      SHA256.sum (bytesOf (projectAB.Name ++ projectAB.Secret ++ "tok"))
        = SHA256.sum (bytesOf (projectCD.Name ++ projectCD.Secret ++ "tok"))) ∧
    (projectAB.Name ++ projectAB.Secret = projectA.Name ++ projectA.Secret →
      ∀ tokenHash, projectAB.ValidateToken "10.1.2.3" tokenHash
        = projectA.ValidateToken "10.1.2.3" tokenHash) :=
  ⟨(validateToken_across_projects projectAB projectCD "10.1.2.3"
      { WhitelistedNetwork := "0.0.0.0/0", Token := "tok" }
      { WhitelistedNetwork := "10.0.0.0/8", Token := "tok" }
      (by decide) (by decide) rfl).1,
   (validateToken_across_projects projectAB projectA "10.1.2.3"
      { WhitelistedNetwork := "0.0.0.0/0", Token := "tok" }
      { WhitelistedNetwork := "0.0.0.0/0", Token := "tok" }
      (by decide) (by decide) rfl).2⟩

/-- C2, counterexample: the default network `0.0.0.0/0` parses, the client
address `2001:db8::1` parses, and within the prefix length 0 there is no bit
to differ, yet `containsIP` returns false: the address is a sixteen-byte one,
the network number has four bytes. -/
theorem containsIP_other_family_example :
    Net.ParseCIDR "0.0.0.0/0" = some { IP := [0, 0, 0, 0], Mask := [0, 0, 0, 0] } ∧
    Net.ParseIP "2001:db8::1" = [0x20, 0x01, 0x0d, 0xb8, 0, 0, 0, 0, 0, 0, 0, 0, 0, 0, 0, 1] ∧
    containsAsStated "0.0.0.0/0" "2001:db8::1" = true ∧
    TokenDetail.containsIP { WhitelistedNetwork := "0.0.0.0/0", Token := "tok" } "2001:db8::1"
      = false := by
  decide

/-- C2, amended: `containsIP` returns true if and only if the CIDR parses to
a network prefix, the IP parses to an address, the address is of the family of
the network (both four bytes, an IPv4-mapped address counting as IPv4, or both
sixteen bytes), and the address's bits equal the network prefix within the
prefix length; it returns false when the CIDR or the IP is malformed.
`("10.0.0.0/8", "10.1.2.3")` is true, `("10.0.0.0/8", "192.168.1.1")` and
`("not-a-cidr", "10.1.2.3")` are false. -/
theorem containsIP_iff_family_and_bits (tokenDetail : TokenDetail) (clientIP : String) :
    tokenDetail.containsIP clientIP = containsAmended tokenDetail.WhitelistedNetwork clientIP ∧
    (Net.ParseCIDR tokenDetail.WhitelistedNetwork = none →
      tokenDetail.containsIP clientIP = false) ∧
    (Net.ParseIP clientIP = [] → tokenDetail.containsIP clientIP = false) ∧
    TokenDetail.containsIP { WhitelistedNetwork := "10.0.0.0/8", Token := "" } "10.1.2.3" = true ∧
    TokenDetail.containsIP { WhitelistedNetwork := "10.0.0.0/8", Token := "" } "192.168.1.1"
      = false ∧
    TokenDetail.containsIP { WhitelistedNetwork := "not-a-cidr", Token := "" } "10.1.2.3"
      = false := by
  have h := containsIP_eq_containsAmended tokenDetail clientIP
  refine ⟨h, ?_, ?_, by decide, by decide, by decide⟩
  · intro hn
    simp [TokenDetail.containsIP, hn]
  · intro hn
    rw [h]
    unfold containsAmended
    cases Net.ParseCIDR tokenDetail.WhitelistedNetwork <;> simp [hn]

theorem containsIP_iff_family_and_bits_witness :
    TokenDetail.containsIP { WhitelistedNetwork := "10.128.0.0/9", Token := "tok" } "10.200.1.1"
      = containsAmended "10.128.0.0/9" "10.200.1.1" ∧
    (Net.ParseCIDR "10.0.0.0/33" = none ∧
      TokenDetail.containsIP { WhitelistedNetwork := "10.0.0.0/33", Token := "tok" } "10.1.2.3"
        = false) ∧
    (Net.ParseIP "10.1.2" = [] ∧
      TokenDetail.containsIP { WhitelistedNetwork := "10.0.0.0/8", Token := "tok" } "10.1.2"
        = false) :=
  ⟨(containsIP_iff_family_and_bits
      { WhitelistedNetwork := "10.128.0.0/9", Token := "tok" } "10.200.1.1").1,
   ⟨by decide, (containsIP_iff_family_and_bits
      { WhitelistedNetwork := "10.0.0.0/33", Token := "tok" } "10.1.2.3").2.1 (by decide)⟩,
   ⟨by decide, (containsIP_iff_family_and_bits
      { WhitelistedNetwork := "10.0.0.0/8", Token := "tok" } "10.1.2").2.2.1 (by decide)⟩⟩

end DeploymentAgent




